import Mathlib

/-!
Verification development for the financial-news analytical engine:
a shallow embedding of the clustering/deduplication service
(app/dedup/dedup_service.py), the impact-aggregation service
(app/mapping/impact_mapping.py) and the query-ranking service
(app/query/query_service.py) over the data model of
app/models/schema.py, together with theorems settling the frozen
claims about those components.

Modelling conventions:
- Python str is String; Python float is ℚ (all constants in the code
  are decimal literals, exactly representable).
- The external numeric kernels (scikit-learn's TF-IDF + cosine in the
  deduplication service, the sentence-transformer embedding model in
  the query service, spaCy NER) are injected capabilities per the
  specification; they appear as function parameters.  Everything the
  repository itself computes (text assembly, argmax selection,
  thresholds, merge rules, scoring, sorting) is embedded concretely.
- Python dicts are association lists in insertion order (CPython
  guarantees insertion-ordered dicts).
- The pydantic models of schema.py define exactly the fields written
  there; extra keyword arguments to a constructor are ignored
  (pydantic default extra behaviour) and assigning an attribute that
  is not a declared field raises ValueError.  The Story model declares
  only id, title, article_ids and embedding.
-/

/-! ## Character/string utilities

Models of the Python string operations used by the services:
s.split(","), str.strip(), ",".join(...), and the substring test
(needle in haystack). -/

/-- Is the character whitespace (models the character class stripped by
Python str.strip). -/
def isWsChar (c : Char) : Bool := c.isWhitespace

/-- Models Python str.strip(): drop leading and trailing whitespace. -/
def trimCL (l : List Char) : List Char :=
  ((l.dropWhile isWsChar).reverse.dropWhile isWsChar).reverse

/-- Models Python s.split(","): split a character list at commas.
Python returns [""] for the empty string, hence the base case. -/
def splitCommaCL : List Char → List (List Char)
  | [] => [[]]
  | c :: cs =>
    if c = ',' then [] :: splitCommaCL cs
    else
      match splitCommaCL cs with
      | [] => [[c]]
      | h :: t => (c :: h) :: t

/-- Models Python ",".join(...) on character lists. -/
def joinCommaCL : List (List Char) → List Char
  | [] => []
  | [p] => p
  | p :: q :: rest => p ++ ',' :: joinCommaCL (q :: rest)

/-- Models the list comprehension in ImpactMappingService._add_impact:
[t.strip() for t in s.split(",") if t.strip()] - split a comma-joined
impact-type string into its trimmed non-empty tags. -/
def splitTags (s : String) : List String :=
  (((splitCommaCL s.toList).map trimCL).filter (fun l => l ≠ [])).map
    (fun l => String.mk l)

/-- Models ",".join(current_types) in ImpactMappingService._add_impact. -/
def joinTags (tags : List String) : String :=
  String.mk (joinCommaCL (tags.map String.toList))

/-- Substring test on character lists (models Python needle in haystack). -/
def containsCL (haystack needle : List Char) : Bool :=
  haystack.tails.any (fun t => needle.isPrefixOf t)

/-- Substring test on strings (models Python needle in haystack). -/
def containsStr (haystack needle : String) : Bool :=
  containsCL haystack.toList needle.toList

/-! ## Data model (app/models/schema.py) -/

/-- NewsArticle (schema.py lines 14-28): raw news article.  id, title
and body are required strings; source, url and published_at are
optional; tickers/sectors/regulators default to empty lists.  The
datetime published_at is kept abstract as a string. -/
structure NewsArticle where
  id : String
  source : Option String
  title : String
  body : String
  url : Option String
  published_at : Option String
  tickers : List String
  sectors : List String
  regulators : List String
deriving DecidableEq

/-- Story (schema.py lines 31-40): a deduplicated story.  The model
declares exactly these four fields - in particular it has NO sectors,
regulators, tickers, sources or summary fields.  The embedding is an
optional cached vector (floats modelled as rationals). -/
structure Story where
  id : String
  title : String
  article_ids : List String
  embedding : Option (List ℚ)
deriving DecidableEq

/-- ImpactedStock (schema.py lines 43-46): symbol, confidence and the
impact type, stored as a single (possibly comma-joined) string. -/
structure ImpactedStock where
  symbol : String
  confidence : ℚ
  impact_type : String
deriving DecidableEq

/-- StoryWithImpact (schema.py lines 49-65): Story enriched with NLP
metadata.  Inherits the Story fields; the extra fields default to
None/empty at construction when not supplied. -/
structure StoryWithImpact where
  id : String
  title : String
  article_ids : List String
  embedding : Option (List ℚ)
  summary : Option String
  sectors : List String
  regulators : List String
  tickers : List String
  impacted_stocks : List ImpactedStock
  sources : List String
  sentiment : Option String
  sentiment_score : Option ℚ
deriving DecidableEq

/-! ## Deduplication service (app/dedup/dedup_service.py) -/

/-- DeduplicationService state: the story map (a Python dict story_id
to Story, in insertion order) and the similarity threshold
(constructor default 0.6). -/
structure DedupState where
  stories : List (String × Story)
  similarity_threshold : ℚ
deriving DecidableEq

/-- The constructor default similarity_threshold = 0.6
(dedup_service.py line 24). -/
def defaultSimilarityThreshold : ℚ := mkRat 6 10

/-- DeduplicationService._article_text (lines 34-66): concatenate the
truthy parts of an article.  The probes for a summary and a content
attribute return None because NewsArticle declares neither field. -/
def articleText (a : NewsArticle) : String :=
  String.intercalate " "
    ((if a.title ≠ "" then [a.title] else []) ++
     (if a.body ≠ "" then [a.body] else []) ++
     (if a.sectors ≠ [] then [String.intercalate " " a.sectors] else []) ++
     (if a.regulators ≠ [] then [String.intercalate " " a.regulators] else []) ++
     (if a.tickers ≠ [] then [String.intercalate " " a.tickers] else []) ++
     (match a.source with
      | some s => if s ≠ "" then [s] else []
      | none => []))

/-- DeduplicationService._story_text (lines 68-96): concatenate the
truthy parts of a story.  The probes for summary, sectors, regulators,
tickers and sources all yield None because the Story model declares no
such fields (schema.py lines 31-40), so only the title survives. -/
def storyText (s : Story) : String :=
  String.intercalate " " (if s.title ≠ "" then [s.title] else [])

/-- Numpy argmax accumulator: scan the remaining scores, replacing the
current best only on a strict increase, so the FIRST maximal index is
kept (numpy.argmax returns the first occurrence of the maximum). -/
def argmaxFrom : ℚ → ℕ → ℕ → List ℚ → ℕ
  | _, bestIdx, _, [] => bestIdx
  | best, bestIdx, cur, x :: xs =>
    if best < x then argmaxFrom x cur (cur + 1) xs
    else argmaxFrom best bestIdx (cur + 1) xs

/-- Models sims.argmax() (dedup_service.py line 121); 0 on the empty
list (numpy would raise, the caller never passes an empty corpus). -/
def argmaxIdx : List ℚ → ℕ
  | [] => 0
  | x :: xs => argmaxFrom x 0 1 xs

/-- DeduplicationService._find_similar_story (lines 102-129).  The
TF-IDF vectorizer fit on the joint corpus (all story texts plus the
article text) followed by cosine similarity of the article row against
every story row is the external numeric kernel; it is abstracted as
the parameter sims, which receives exactly that joint corpus and
returns the per-story cosine scores.  Everything else - the corpus
construction, the first-maximum selection and the threshold test - is
embedded concretely. -/
def findSimilarStory (sims : List String → String → List ℚ)
    (st : DedupState) (a : NewsArticle) : Option String :=
  if st.stories = [] then none
  else
    let corpus := st.stories.map (fun p => storyText p.2)
    let scores := sims corpus (articleText a)
    let best_idx := argmaxIdx scores
    let best_score := scores.getD best_idx 0
    if best_score < st.similarity_threshold then none
    else some ((st.stories.map (fun p => p.1)).getD best_idx "")

/-- The first attribute on which the merge branch of process_article
(lines 183-200) raises.  _merge_list_attr assigns to story.sectors /
story.regulators / story.tickers / story.sources when the article
brings new values, but the Story model declares none of those fields,
so the first pydantic setattr raises ValueError; with no new values
the helper returns before assigning.  Returns the attribute name of
the first failing assignment, or none when the merge completes. -/
def firstMissingAttr (a : NewsArticle) : Option String :=
  if a.sectors ≠ [] then some "sectors"
  else if a.regulators ≠ [] then some "regulators"
  else if a.tickers ≠ [] then some "tickers"
  else
    match a.source with
    | some s => if s ≠ "" then some "sources" else none
    | none => none

/-- DeduplicationService.process_article (lines 135-202).  freshId
models str(uuid4()).  The create branch builds a Story; the sectors,
regulators, tickers, sources and summary keyword arguments passed in
the source (lines 162-171) are silently dropped because the Story
model declares no such fields (pydantic ignores extra constructor
arguments), so only id, title and article_ids are populated and the
embedding keeps its None default.  The merge branch appends the
article id first (lines 179-180) and then runs _merge_list_attr,
whose failing setattr is modelled as an error result; the state
mutation before the raise is preserved, matching Python in-place
mutation semantics. -/
def processArticle (sims : List String → String → List ℚ)
    (freshId : String) (st : DedupState) (a : NewsArticle) :
    DedupState × Except String Story :=
  match findSimilarStory sims st a with
  | none =>
    let story : Story :=
      { id := freshId, title := a.title, article_ids := [a.id], embedding := none }
    ({ stories := st.stories ++ [(freshId, story)],
       similarity_threshold := st.similarity_threshold },
     Except.ok story)
  | some sid =>
    match st.stories.find? (fun p => decide (p.1 = sid)) with
    | none => (st, Except.error "KeyError")
    | some p =>
      let merged : Story :=
        { p.2 with
          article_ids :=
            if a.id ∈ p.2.article_ids then p.2.article_ids
            else p.2.article_ids ++ [a.id] }
      ({ stories :=
           st.stories.map (fun q => if q.1 = sid then (q.1, merged) else q),
         similarity_threshold := st.similarity_threshold },
       match firstMissingAttr a with
       | none => Except.ok merged
       | some attr =>
         Except.error ("\"Story\" object has no field \"" ++ attr ++ "\""))

/-- Fold process_article over a stream of articles (the ingestion loop
for a in articles: svc.process_article(a)).  The uuid4 draws are
modelled by the supply function, one index per article (a draw is only
consumed by the create branch; supplying one per article is
behaviourally identical because the draws are arbitrary). -/
def processMany (sims : List String → String → List ℚ)
    (supply : ℕ → String) : DedupState → ℕ → List NewsArticle → DedupState
  | st, _, [] => st
  | st, n, a :: rest =>
    processMany sims supply (processArticle sims (supply n) st a).1 (n + 1) rest

/-! ## Impact-aggregation service (app/mapping/impact_mapping.py) -/

/-- ImpactMappingService configuration (set in __init__, lines 27-30,
and never mutated afterwards): the sector membership tables. -/
structure ImpactConfig where
  bank_stocks : List String
  it_stocks : List String
deriving DecidableEq

/-- The concrete configuration of impact_mapping.py lines 29-30. -/
def defaultImpactConfig : ImpactConfig :=
  { bank_stocks := ["HDFCBANK", "ICICIBANK"], it_stocks := ["INFY"] }

/-- The merge arm of ImpactMappingService._add_impact (lines 94-111):
split both type strings into trimmed tags, append the new tags not
already present, keep the higher confidence, re-join with commas. -/
def mergeImpact (st : ImpactedStock) (impact_type : String)
    (confidence : ℚ) : ImpactedStock :=
  let current_types := splitTags st.impact_type
  let new_types := splitTags impact_type
  let merged :=
    new_types.foldl (fun cur t => if t ∈ cur then cur else cur ++ [t]) current_types
  { symbol := st.symbol,
    confidence := if st.confidence < confidence then confidence else st.confidence,
    impact_type := joinTags merged }

/-- ImpactMappingService._add_impact (lines 69-111) acting on the
impacts dict (symbol-keyed, insertion-ordered).  A new symbol is
inserted with the raw type string; an existing symbol is merged with
mergeImpact. -/
def addImpact (impacts : List ImpactedStock) (symbol : String)
    (impact_type : String) (confidence : ℚ) : List ImpactedStock :=
  if impacts.any (fun st => decide (st.symbol = symbol)) then
    impacts.map (fun st =>
      if st.symbol = symbol then mergeImpact st impact_type confidence else st)
  else impacts ++ [{ symbol := symbol, confidence := confidence,
                     impact_type := impact_type }]

/-- The per-symbol slot of the impacts dict under a sequence of
_add_impact calls for one fixed symbol: none while the symbol is
absent, then created from the first signal and merged with each later
signal.  A signal is a (confidence, impact_type) pair. -/
def applySignalStep (symbol : String) (cur : Option ImpactedStock)
    (sig : ℚ × String) : Option ImpactedStock :=
  match cur with
  | none =>
    some { symbol := symbol, confidence := sig.1, impact_type := sig.2 }
  | some st => some (mergeImpact st sig.2 sig.1)

def applySignals (symbol : String) (sigs : List (ℚ × String)) :
    Option ImpactedStock :=
  sigs.foldl (applySignalStep symbol) none

/-- Dict lookup articles_by_id.get(art_id). -/
def lookupArticle (arts : List (String × NewsArticle)) (aid : String) :
    Option NewsArticle :=
  (arts.find? (fun p => decide (p.1 = aid))).map (fun p => p.2)

/-- The article part of ImpactMappingService._story_text (lines 49-65):
walk article_ids, skip missing ids, take title and body of the first
article found and stop (the break statement). -/
def firstArticleParts (arts : List (String × NewsArticle)) :
    List String → List String
  | [] => []
  | aid :: rest =>
    match lookupArticle arts aid with
    | none => firstArticleParts arts rest
    | some art =>
      (if art.title ≠ "" then [art.title] else []) ++
      (if art.body ≠ "" then [art.body] else [])

/-- ImpactMappingService._story_text (lines 36-67): story title (the
summary probe yields None - Story declares no summary field) plus the
first member article's title and body, joined and lowercased. -/
def mapStoryText (story : Story) (arts : List (String × NewsArticle)) : String :=
  (String.intercalate " "
    ((if story.title ≠ "" then [story.title] else []) ++
     firstArticleParts arts story.article_ids)).toLower

/-- ImpactMappingService.map_story (lines 117-179).  The getattr
probes for story.sectors / story.regulators / story.tickers return the
default [] because the Story model declares none of those fields, so
the sector-table, ticker-tag and regulator-tag rules can only fire
through the text conditions.  The final StoryWithImpact is built from
story.model_dump() (id, title, article_ids, embedding) plus the
impacted list; every other field keeps its schema default. -/
def mapStory (cfg : ImpactConfig) (story : Story)
    (arts : List (String × NewsArticle)) : StoryWithImpact :=
  let text := mapStoryText story arts
  let sectors : List String := []
  let regulators : List String := []
  let tickers : List String := []
  let i0 : List ImpactedStock := []
  let i1 :=
    if containsStr text "hdfc bank" || containsStr text "hdfcbank" ||
        containsStr text "hdfc bank ltd" then
      addImpact i0 "HDFCBANK" "direct" 1
    else i0
  let i2 :=
    if containsStr text "icici bank" || containsStr text "icicibank" ||
        containsStr text "icici bank ltd" then
      addImpact i1 "ICICIBANK" "direct" 1
    else i1
  let i3 :=
    if containsStr text "infosys" || containsStr text "infy" ||
        containsStr text "infosys ltd" then
      addImpact i2 "INFY" "direct" 1
    else i2
  let i4 := if "HDFCBANK" ∈ tickers then addImpact i3 "HDFCBANK" "direct" 1 else i3
  let i5 := if "ICICIBANK" ∈ tickers then addImpact i4 "ICICIBANK" "direct" 1 else i4
  let i6 := if "INFY" ∈ tickers then addImpact i5 "INFY" "direct" 1 else i5
  let i7 :=
    if "Banking" ∈ sectors ∨ "banking" ∈ sectors then
      cfg.bank_stocks.foldl (fun acc sym => addImpact acc sym "sector" (mkRat 7 10)) i6
    else i6
  let i8 :=
    if "IT" ∈ sectors ∨ "Technology" ∈ sectors ∨ "technology" ∈ sectors then
      cfg.it_stocks.foldl (fun acc sym => addImpact acc sym "sector" (mkRat 7 10)) i7
    else i7
  let i9 :=
    if "RBI" ∈ regulators ∨ "rbi" ∈ regulators ∨
        containsStr text "reserve bank of india" then
      (cfg.it_stocks.foldl (fun acc sym => addImpact acc sym "sector" (mkRat 7 10))
        (cfg.bank_stocks.foldl
          (fun acc sym => addImpact acc sym "regulatory" (mkRat 7 10)) i7))
    else i8
  { id := story.id, title := story.title, article_ids := story.article_ids,
    embedding := story.embedding, summary := none, sectors := [],
    regulators := [], tickers := [], impacted_stocks := i9, sources := [],
    sentiment := none, sentiment_score := none }

/-- A call of the map_story method on the service object: the service
state (its only instance attributes, the configuration tables) is
returned alongside the result.  The method body reads the tables and
never assigns to self, so the post-state is the pre-state. -/
def mapStoryCall (cfg : ImpactConfig) (story : Story)
    (arts : List (String × NewsArticle)) : ImpactConfig × StoryWithImpact :=
  (cfg, mapStory cfg story arts)

/-! ## Query-ranking service (app/query/query_service.py) -/

/-- The result of EntityExtractionService.extract_from_text: the four
entity lists.  The extraction itself runs spaCy (an external
capability) and is abstracted as a parameter of search. -/
structure NerOut where
  companies : List String
  sectors : List String
  regulators : List String
  tickers : List String
deriving DecidableEq

/-- EntityExtractionService.company_to_ticker (ner_service.py lines
20-24): the concrete company-to-ticker table. -/
def companyToTicker (c : String) : Option String :=
  if c = "HDFC Bank" then some "HDFCBANK"
  else if c = "ICICI Bank" then some "ICICIBANK"
  else if c = "Infosys" then some "INFY"
  else none

/-- EntityExtractionService.companies_to_tickers (lines 141-150): map
each company through the table, dropping unknown names (the values of
the returned dict). -/
def companiesToTickers (cs : List String) : List String :=
  cs.filterMap companyToTicker

/-- The entity-based scoring loop of QueryService.search (lines
83-110): ticker overlap (direct 1.0 / other 0.8), sector match 0.7,
regulator match 0.9, accumulated with max starting from 0.0. -/
def entityScore (query_tickers sectors regulators : List String)
    (story : StoryWithImpact) : ℚ :=
  let score0 : ℚ := 0
  let score1 :=
    if query_tickers ≠ [] then
      let story_tickers := story.impacted_stocks.map (fun is => is.symbol)
      let overlap := story_tickers.filter (fun t => decide (t ∈ query_tickers))
      if overlap ≠ [] then
        story.impacted_stocks.foldl
          (fun sc is =>
            if is.symbol ∈ overlap then
              (if containsStr is.impact_type "direct" then max sc 1
               else max sc (mkRat 4 5))
            else sc)
          score0
      else score0
    else score0
  let score2 :=
    if sectors ≠ [] then
      (if sectors.any (fun sec => decide (sec ∈ story.sectors)) then
        max score1 (mkRat 7 10)
      else score1)
    else score1
  let score3 :=
    if regulators ≠ [] then
      (if regulators.any (fun reg => decide (reg ∈ story.regulators)) then
        max score2 (mkRat 9 10)
      else score2)
    else score2
  score3

/-- Dot product of two rational vectors: models np.dot on the
normalized embeddings (QueryService._cosine, lines 39-40).  np.dot
requires equal lengths; zip truncation is harmless for the claims. -/
def dotQ (v w : List ℚ) : ℚ :=
  (v.zip w).foldl (fun acc p => acc + p.1 * p.2) 0

/-- The no-entities-at-all test of QueryService.search lines 122-127:
no companies, no sectors, no regulators, and no resolved query
tickers. -/
def noEntityQuery (e : NerOut) : Bool :=
  decide (e.companies = []) && decide (e.sectors = []) &&
  decide (e.regulators = []) &&
  decide (companiesToTickers e.companies ++ e.tickers = [])

/-- The semantic-similarity pass of QueryService.search (lines
112-132) for one story: stories without a cached embedding are
skipped; a purely thematic query promotes the score to
max(score, similarity) when similarity is at least 0.3; otherwise the
similarity contributes the additive booster 0.2 * similarity. -/
def semanticAdjust (noEnt : Bool) (qEmb : List ℚ) (story : StoryWithImpact)
    (score : ℚ) : ℚ :=
  match story.embedding with
  | none => score
  | some emb =>
    let sem_sim := dotQ qEmb emb
    if noEnt then (if mkRat 3 10 ≤ sem_sim then max score sem_sim else score)
    else score + mkRat 1 5 * sem_sim

/-- The per-story (story, score) pairs after the entity pass and the
semantic pass of QueryService.search, in index order.  The scores dict
keyed by id(story) is positional: the indexed stories are distinct
Python objects with distinct ids. -/
def searchAdjusted (extract : String → NerOut) (embedFn : String → List ℚ)
    (stories : List StoryWithImpact) (query : String) :
    List (StoryWithImpact × ℚ) :=
  let e := extract query
  let query_tickers := companiesToTickers e.companies ++ e.tickers
  let qEmb := embedFn query
  stories.map (fun s =>
    (s, semanticAdjust (noEntityQuery e) qEmb s
          (entityScore query_tickers e.sectors e.regulators s)))

/-- The min_score filter of QueryService.search (lines 135-139). -/
def searchScored (extract : String → NerOut) (embedFn : String → List ℚ)
    (stories : List StoryWithImpact) (query : String) (min_score : ℚ) :
    List (StoryWithImpact × ℚ) :=
  (searchAdjusted extract embedFn stories query).filter
    (fun p => decide (min_score ≤ p.2))

/-- Stable descending insertion: place x after every element whose
score is at least x's score.  Together with the left-to-right fold
this models Python's stable list.sort(key=score, reverse=True), which
keeps the original order of equal-score elements. -/
def insertDesc (x : StoryWithImpact × ℚ) :
    List (StoryWithImpact × ℚ) → List (StoryWithImpact × ℚ)
  | [] => [x]
  | y :: ys => if y.2 < x.2 then x :: y :: ys else y :: insertDesc x ys

/-- Stable descending sort by score (models scored.sort(key=lambda x:
x[1], reverse=True)). -/
def sortDesc (l : List (StoryWithImpact × ℚ)) : List (StoryWithImpact × ℚ) :=
  l.foldl (fun acc x => insertDesc x acc) []

/-- QueryService.search (lines 46-142): empty index short-circuit,
entity scoring, semantic adjustment, min_score filter, stable
descending sort, topK truncation. -/
def search (extract : String → NerOut) (embedFn : String → List ℚ)
    (stories : List StoryWithImpact) (query : String) (top_k : ℕ)
    (min_score : ℚ) : List (StoryWithImpact × ℚ) :=
  if stories = [] then []
  else (sortDesc (searchScored extract embedFn stories query min_score)).take top_k

/-! ## Specification-side definitions

These definitions follow the wording of the specification/claims and
are compared with the code-side definitions above in the refinement
theorems; they are not translations of the source. -/

/-- The impact-type strings a story produced by the impact mapper can
carry: comma-joins of distinct tags from direct/sector/regulatory in
any encounter order (the specification draws impact-type tags from
exactly this set). -/
def wellFormedTypes : List String :=
  ["direct", "sector", "regulatory",
   "direct,sector", "sector,direct",
   "direct,regulatory", "regulatory,direct",
   "sector,regulatory", "regulatory,sector",
   "direct,sector,regulatory", "direct,regulatory,sector",
   "sector,direct,regulatory", "sector,regulatory,direct",
   "regulatory,direct,sector", "regulatory,sector,direct"]

/-- Claim-side ticker component: 1.0 if the resolved query tickers
intersect the story's impacted-entity symbols and some overlapping
symbol's impact-type set includes direct, 0.8 if they intersect with
no direct tag, else 0. -/
def tickerMatchValue (query_tickers : List String)
    (story : StoryWithImpact) : ℚ :=
  let overlap :=
    (story.impacted_stocks.map (fun is => is.symbol)).filter
      (fun t => decide (t ∈ query_tickers))
  if overlap ≠ [] then
    (if story.impacted_stocks.any
        (fun is => decide (is.symbol ∈ overlap) &&
                   decide ("direct" ∈ splitTags is.impact_type)) then 1
     else mkRat 4 5)
  else 0

/-- Claim-side entity score: the maximum of the ticker component, 0.7
on sector intersection, 0.9 on regulator intersection, and 0.0. -/
def claimEntityScore (query_tickers sectors regulators : List String)
    (story : StoryWithImpact) : ℚ :=
  max (max (max 0 (tickerMatchValue query_tickers story))
        (if sectors.any (fun sec => decide (sec ∈ story.sectors)) then mkRat 7 10
         else 0))
    (if regulators.any (fun reg => decide (reg ∈ story.regulators)) then mkRat 9 10
     else 0)

/-- Claim-side final per-story score: the bare entity score for a
story without a cached embedding; max(entity score, similarity) for a
purely thematic query when similarity is at least 0.3 and the entity
score unchanged below that; entity score + 0.2 * similarity when the
query yielded at least one entity. -/
def claimAdjustedScore (e : NerOut) (qEmb : List ℚ)
    (story : StoryWithImpact) : ℚ :=
  let es := entityScore (companiesToTickers e.companies ++ e.tickers)
      e.sectors e.regulators story
  match story.embedding with
  | none => es
  | some emb =>
    let sim := dotQ qEmb emb
    if e.companies = [] ∧ e.sectors = [] ∧ e.regulators = [] ∧
        companiesToTickers e.companies ++ e.tickers = [] then
      (if mkRat 3 10 ≤ sim then max es sim else es)
    else es + mkRat 1 5 * sim

/-- Well-formedness of a single stored tag: the token lists produced
by splitTags are non-empty, comma-free and strip-fixed. -/
def tokenOk (t : String) : Prop :=
  t.toList ≠ [] ∧ ',' ∉ t.toList ∧ trimCL t.toList = t.toList

/-- Concrete similarity kernel for exercising the clustering decision:
every story in the corpus scores 1.0 (the TF-IDF cosine of identical
texts). -/
def c1Sims : List String → String → List ℚ :=
  fun corpus _ => corpus.map (fun _ => 1)

/-- Concrete one-story state for exercising the clustering decision. -/
def c1State : DedupState :=
  { stories := [("s1", { id := "s1", title := "Alpha", article_ids := ["a1"],
                         embedding := none })],
    similarity_threshold := mkRat 6 10 }

/-- Concrete untagged article for exercising the clustering decision. -/
def c1Article : NewsArticle :=
  { id := "a2", source := none, title := "Alpha", body := "", url := none,
    published_at := none, tickers := [], sectors := [], regulators := [] }

/-- Invariant of the deduplication state after processing the given
article ids with uuid draws supply 0 .. supply (n-1): the story keys
are distinct and drawn from the used uuids, and the member lists are
duplicate-free with union exactly the processed ids. -/
def DedupInv (supply : ℕ → String) (st : DedupState)
    (processed : List String) (n : ℕ) : Prop :=
  (st.stories.map Prod.fst).Nodup ∧
  (∀ k ∈ st.stories.map Prod.fst, ∃ i, i < n ∧ k = supply i) ∧
  ((st.stories.map (fun p => p.2.article_ids)).flatten).Nodup ∧
  (∀ x, x ∈ (st.stories.map (fun p => p.2.article_ids)).flatten ↔
    x ∈ processed)

/-- Concrete constant-1.0 similarity kernel for the partition witness. -/
def c4Sims : List String → String → List ℚ :=
  fun corpus _ => corpus.map (fun _ => 1)

/-- Concrete injective uuid supply for the partition witness. -/
def c4Supply : ℕ → String :=
  fun k => String.mk (List.replicate k 'x')

/-- Concrete two-article stream for the partition witness. -/
def c4Articles : List NewsArticle :=
  [{ id := "a1", source := none, title := "Alpha", body := "", url := none,
     published_at := none, tickers := [], sectors := [], regulators := [] },
   { id := "a2", source := none, title := "Beta", body := "", url := none,
     published_at := none, tickers := [], sectors := [], regulators := [] }]

/-- Dummy dict entry used as the irrelevant getD default when stating
facts about the entry at a known in-range index. -/
def dummyStoryEntry : String × Story :=
  ("", { id := "", title := "", article_ids := [], embedding := none })

/-! ## Theorems -/

/-- C9: map_story is deterministic and idempotent - a call returns the
service state unchanged (the method never assigns to the service
object), and a second call on the same (story, articles_by_id) input,
through the state returned by the first call, produces a bit-identical
EnrichedStory. -/
theorem map_story_idempotent (cfg : ImpactConfig) (story : Story)
    (arts : List (String × NewsArticle)) :
    mapStoryCall cfg story arts = (cfg, mapStory cfg story arts) ∧
    (mapStoryCall (mapStoryCall cfg story arts).1 story arts).2 =
      (mapStoryCall cfg story arts).2 :=
  ⟨rfl, rfl⟩

/-- C10 counterexample: map_story applied to a concrete story (with a
member article carrying body text) returns an EnrichedStory whose
sentiment label and sentiment score are both None - no sentiment is
computed over the aggregate text, refuting the claimed classification
with the 0.05 thresholds. -/
theorem map_story_sentiment_missing :
    (mapStory defaultImpactConfig
      { id := "s1", title := "RBI cuts repo rate", article_ids := ["a1"],
        embedding := none }
      [("a1",
        { id := "a1", source := some "MockWire", title := "RBI cuts repo rate",
          body := "The Reserve Bank of India lowered the repo rate today.",
          url := none, published_at := none, tickers := [], sectors := [],
          regulators := [] })]).sentiment = none ∧
    (mapStory defaultImpactConfig
      { id := "s1", title := "RBI cuts repo rate", article_ids := ["a1"],
        embedding := none }
      [("a1",
        { id := "a1", source := some "MockWire", title := "RBI cuts repo rate",
          body := "The Reserve Bank of India lowered the repo rate today.",
          url := none, published_at := none, tickers := [], sectors := [],
          regulators := [] })]).sentiment_score = none :=
  ⟨rfl, rfl⟩

/-- C10 amended: map_story leaves the sentiment annotation unset - for
every input, the EnrichedStory it produces has sentiment = None and
sentiment_score = None (the StoryWithImpact schema defaults); no
sentiment classification is performed anywhere in the service. -/
theorem map_story_no_sentiment (cfg : ImpactConfig) (story : Story)
    (arts : List (String × NewsArticle)) :
    (mapStory cfg story arts).sentiment = none ∧
    (mapStory cfg story arts).sentiment_score = none :=
  ⟨rfl, rfl⟩

/-- C7 amended: whenever process_article creates a new story (no
existing story matched), the story is exactly the record with the
supplied fresh uuid as id, the article's title, member list
[article.id] and embedding None, appended to the story map; the
sectors/regulators/tickers/sources/summary arguments passed by the
source are dropped because the Story model declares no such fields,
and no embedding is cached. -/
theorem story_create_fields (sims : List String → String → List ℚ)
    (freshId : String) (st : DedupState) (a : NewsArticle)
    (h : findSimilarStory sims st a = none) :
    processArticle sims freshId st a =
      ({ stories := st.stories ++
           [(freshId, { id := freshId, title := a.title,
                        article_ids := [a.id], embedding := none })],
         similarity_threshold := st.similarity_threshold },
       Except.ok { id := freshId, title := a.title, article_ids := [a.id],
                   embedding := none }) := by
  unfold processArticle
  rw [h]

/-- Witness for story_create_fields: a concrete article carrying a
source, a ticker and a sector tag, processed on an empty story map. -/
theorem story_create_fields_witness :
    findSimilarStory (fun _ _ => [])
      { stories := [], similarity_threshold := mkRat 6 10 }
      { id := "a1", source := some "MockWire",
        title := "HDFC Bank raises rates", body := "Body.", url := none,
        published_at := none, tickers := ["HDFCBANK"], sectors := ["Banking"],
        regulators := [] } = none ∧
    processArticle (fun _ _ => []) "s1"
      { stories := [], similarity_threshold := mkRat 6 10 }
      { id := "a1", source := some "MockWire",
        title := "HDFC Bank raises rates", body := "Body.", url := none,
        published_at := none, tickers := ["HDFCBANK"], sectors := ["Banking"],
        regulators := [] } =
      ({ stories := [("s1", { id := "s1", title := "HDFC Bank raises rates",
                              article_ids := ["a1"], embedding := none })],
         similarity_threshold := mkRat 6 10 },
       Except.ok { id := "s1", title := "HDFC Bank raises rates",
                   article_ids := ["a1"], embedding := none }) :=
  ⟨rfl, story_create_fields (fun _ _ => []) "s1"
    { stories := [], similarity_threshold := mkRat 6 10 } _ rfl⟩

/-- C7 counterexample: processing an article tagged with sector
Banking, ticker HDFCBANK and source MockWire on an empty story map
creates a story whose embedding is None (no article vector is cached)
and whose stored record carries none of those tags - the text later
derived from the story for similarity comparisons is the bare title,
with the Banking/HDFCBANK/MockWire data absent. -/
theorem story_create_counterexample :
    (processArticle (fun _ _ => []) "s1"
      { stories := [], similarity_threshold := mkRat 6 10 }
      { id := "a1", source := some "MockWire",
        title := "HDFC Bank raises rates", body := "Body.", url := none,
        published_at := none, tickers := ["HDFCBANK"], sectors := ["Banking"],
        regulators := [] }).2 =
      Except.ok { id := "s1", title := "HDFC Bank raises rates",
                  article_ids := ["a1"], embedding := none } ∧
    ((processArticle (fun _ _ => []) "s1"
      { stories := [], similarity_threshold := mkRat 6 10 }
      { id := "a1", source := some "MockWire",
        title := "HDFC Bank raises rates", body := "Body.", url := none,
        published_at := none, tickers := ["HDFCBANK"], sectors := ["Banking"],
        regulators := [] }).1.stories.map (fun p => storyText p.2)) =
      ["HDFC Bank raises rates"] :=
  ⟨rfl, rfl⟩

/-- C8: merging a tagged article into an existing story raises.  With
one existing story and the similarity kernel returning 1.0 (the TF-IDF
cosine of two identical texts), processing a second article that
carries a sector tag merges - the article id is appended to the
matched story's member list - and then _merge_list_attr's setattr on
the tag-less Story model raises ValueError mid-merge, contradicting
the never-fails contract. -/
theorem merge_tagged_article_raises :
    processArticle (fun _ _ => [(1 : ℚ)]) "s2"
      { stories := [("s1", { id := "s1", title := "HDFC Bank raises rates",
                             article_ids := ["a1"], embedding := none })],
        similarity_threshold := mkRat 6 10 }
      { id := "a2", source := none, title := "HDFC Bank raises rates",
        body := "", url := none, published_at := none, tickers := [],
        sectors := ["Banking"], regulators := [] } =
      ({ stories := [("s1", { id := "s1", title := "HDFC Bank raises rates",
                              article_ids := ["a1", "a2"], embedding := none })],
         similarity_threshold := mkRat 6 10 },
       Except.error "\"Story\" object has no field \"sectors\"") := by
  rfl

/-- Invariant of the numpy argmax accumulator: either no element of
the remaining list strictly beats the incoming best (and the incoming
index is returned), or the first strictly-beating maximal element at
offset i is returned as cur + i. -/
theorem argmaxFrom_spec (xs : List ℚ) : ∀ (best : ℚ) (bestIdx cur : ℕ),
    (argmaxFrom best bestIdx cur xs = bestIdx ∧
      ∀ i, i < xs.length → xs.getD i 0 ≤ best) ∨
    (∃ i, i < xs.length ∧ argmaxFrom best bestIdx cur xs = cur + i ∧
      best < xs.getD i 0 ∧
      (∀ j, j < xs.length → xs.getD j 0 ≤ xs.getD i 0) ∧
      (∀ j, j < i → xs.getD j 0 < xs.getD i 0)) := by
  induction xs with
  | nil =>
    intro best bestIdx cur
    left
    exact ⟨rfl, by intro i hi; simp at hi⟩
  | cons x xs ih =>
    intro best bestIdx cur
    by_cases h : best < x
    · have step : argmaxFrom best bestIdx cur (x :: xs) =
        argmaxFrom x cur (cur + 1) xs := by simp [argmaxFrom, h]
      rcases ih x cur (cur + 1) with ⟨heq, hall⟩ | ⟨i, hi, heq, hbi, hmax, hfirst⟩
      · right
        refine ⟨0, by simp, ?_, by simpa using h, ?_, ?_⟩
        · rw [step, heq]; omega
        · intro j hj
          match j with
          | 0 => exact le_refl _
          | j + 1 =>
            simp only [List.getD_cons_succ, List.getD_cons_zero]
            exact hall j (by simpa using hj)
        · intro j hj; omega
      · right
        refine ⟨i + 1, by simpa using hi, ?_, ?_, ?_, ?_⟩
        · rw [step, heq]; omega
        · simpa only [List.getD_cons_succ] using lt_trans h hbi
        · intro j hj
          match j with
          | 0 =>
            simp only [List.getD_cons_succ, List.getD_cons_zero]
            exact le_of_lt hbi
          | j + 1 =>
            simp only [List.getD_cons_succ]
            exact hmax j (by simpa using hj)
        · intro j hj
          match j with
          | 0 =>
            simp only [List.getD_cons_succ, List.getD_cons_zero]
            exact hbi
          | j + 1 =>
            simp only [List.getD_cons_succ]
            exact hfirst j (by omega)
    · have step : argmaxFrom best bestIdx cur (x :: xs) =
        argmaxFrom best bestIdx (cur + 1) xs := by simp [argmaxFrom, h]
      push_neg at h
      rcases ih best bestIdx (cur + 1) with ⟨heq, hall⟩ | ⟨i, hi, heq, hbi, hmax, hfirst⟩
      · left
        refine ⟨by rw [step, heq], ?_⟩
        intro j hj
        match j with
        | 0 => simpa using h
        | j + 1 =>
          simp only [List.getD_cons_succ]
          exact hall j (by simpa using hj)
      · right
        refine ⟨i + 1, by simpa using hi, ?_, ?_, ?_, ?_⟩
        · rw [step, heq]; omega
        · simpa only [List.getD_cons_succ] using hbi
        · intro j hj
          match j with
          | 0 =>
            simp only [List.getD_cons_succ, List.getD_cons_zero]
            exact le_of_lt (lt_of_le_of_lt h hbi)
          | j + 1 =>
            simp only [List.getD_cons_succ]
            exact hmax j (by simpa using hj)
        · intro j hj
          match j with
          | 0 =>
            simp only [List.getD_cons_succ, List.getD_cons_zero]
            exact lt_of_le_of_lt h hbi
          | j + 1 =>
            simp only [List.getD_cons_succ]
            exact hfirst j (by omega)

/-- The index returned by argmaxIdx on a non-empty list is in range,
attains the maximum, and every strictly earlier index holds a strictly
smaller score (first-occurrence tie-break, as numpy.argmax). -/
theorem argmaxIdx_spec (scores : List ℚ) (hne : scores ≠ []) :
    argmaxIdx scores < scores.length ∧
    (∀ i, i < scores.length →
      scores.getD i 0 ≤ scores.getD (argmaxIdx scores) 0) ∧
    (∀ j, j < argmaxIdx scores →
      scores.getD j 0 < scores.getD (argmaxIdx scores) 0) := by
  match scores with
  | [] => exact absurd rfl hne
  | x :: xs =>
    have hidx : argmaxIdx (x :: xs) = argmaxFrom x 0 1 xs := rfl
    rcases argmaxFrom_spec xs x 0 1 with ⟨heq, hall⟩ | ⟨i, hi, heq, hbi, hmax, hfirst⟩
    · rw [hidx, heq]
      refine ⟨by simp, ?_, by intro j hj; omega⟩
      intro j hj
      match j with
      | 0 => exact le_refl _
      | j + 1 =>
        simp only [List.getD_cons_succ, List.getD_cons_zero]
        exact hall j (by simpa using hj)
    · rw [hidx, heq]
      have h1i : 1 + i = i + 1 := by omega
      rw [h1i]
      refine ⟨by simpa using hi, ?_, ?_⟩
      · intro j hj
        simp only [List.getD_cons_succ]
        match j with
        | 0 =>
          simp only [List.getD_cons_zero]
          exact le_of_lt hbi
        | j + 1 =>
          simp only [List.getD_cons_succ]
          exact hmax j (by simpa using hj)
      · intro j hj
        simp only [List.getD_cons_succ]
        match j with
        | 0 =>
          simp only [List.getD_cons_zero]
          exact hbi
        | j + 1 =>
          simp only [List.getD_cons_succ]
          exact hfirst j (by omega)

/-- With duplicate-free keys, looking the k-th key back up in the
story map (story_ids[best_idx] followed by self.stories[id]) finds
exactly the k-th entry. -/
theorem find?_key_eq_get (l : List (String × Story)) :
    ∀ (k : ℕ) (hk : k < l.length), (l.map Prod.fst).Nodup →
    l.find? (fun p => decide (p.1 = (l.map Prod.fst).getD k "")) =
      some (l.get ⟨k, hk⟩) := by
  induction l with
  | nil => intro k hk _; simp at hk
  | cons p rest ih =>
    intro k hk hnd
    rw [List.map_cons, List.nodup_cons] at hnd
    match k with
    | 0 =>
      simp only [List.map_cons, List.getD_cons_zero]
      exact List.find?_cons_of_pos _ (by simp)
    | k + 1 =>
      have hk' : k < rest.length := by simpa using hk
      have hkey : (rest.map Prod.fst).getD k "" ∈ rest.map Prod.fst := by
        rw [List.getD_eq_getElem _ _ (by simpa using hk')]
        exact List.getElem_mem _
      have hne : p.1 ≠ ((p :: rest).map Prod.fst).getD (k + 1) "" := by
        simp only [List.map_cons, List.getD_cons_succ]
        intro hcontra
        exact hnd.1 (hcontra ▸ hkey)
      have hkeysucc : ((p :: rest).map Prod.fst).getD (k + 1) "" =
          (rest.map Prod.fst).getD k "" := by
        simp only [List.map_cons, List.getD_cons_succ]
      rw [List.find?_cons_of_neg _ (by simpa using hne)]
      simp only [hkeysucc]
      simpa using ih k hk' hnd.2

/-- With duplicate-free keys, the merge loop's per-entry key test
rewrites exactly the k-th entry: the dict-valued update equals a
positional set. -/
theorem mapUpdate_eq_set (merged : Story) (l : List (String × Story)) :
    ∀ (k : ℕ), k < l.length → (l.map Prod.fst).Nodup →
    l.map (fun q =>
      if q.1 = (l.map Prod.fst).getD k "" then (q.1, merged) else q) =
      l.set k ((l.map Prod.fst).getD k "", merged) := by
  induction l with
  | nil => intro k hk _; simp at hk
  | cons p rest ih =>
    intro k hk hnd
    rw [List.map_cons, List.nodup_cons] at hnd
    match k with
    | 0 =>
      simp only [List.map_cons, List.getD_cons_zero, List.set_cons_zero]
      refine List.cons_eq_cons.mpr ⟨by simp, ?_⟩
      have hall : ∀ q ∈ rest, (fun q : String × Story =>
          if q.1 = p.1 then (q.1, merged) else q) q = id q := by
        intro q hq
        have hqne : q.1 ≠ p.1 := by
          intro hcontra
          exact hnd.1 (hcontra ▸ List.mem_map_of_mem Prod.fst hq)
        simp [hqne]
      rw [List.map_congr_left hall, List.map_id]
    | k + 1 =>
      have hk' : k < rest.length := by simpa using hk
      have hkey : (rest.map Prod.fst).getD k "" ∈ rest.map Prod.fst := by
        rw [List.getD_eq_getElem _ _ (by simpa using hk')]
        exact List.getElem_mem _
      have hne : p.1 ≠ ((p :: rest).map Prod.fst).getD (k + 1) "" := by
        simp only [List.map_cons, List.getD_cons_succ]
        intro hcontra
        exact hnd.1 (hcontra ▸ hkey)
      have hkeysucc : ((p :: rest).map Prod.fst).getD (k + 1) "" =
          (rest.map Prod.fst).getD k "" := by
        simp only [List.map_cons, List.getD_cons_succ]
      simp only [List.map_cons, List.getD_cons_succ, List.set_cons_succ]
      refine List.cons_eq_cons.mpr ⟨?_, ?_⟩
      · rw [if_neg (hkeysucc ▸ hne)]
      · exact ih k hk' hnd.2

/-- C1: the clustering decision.  With at least one story, the engine
scores the new article against every story in the jointly-vectorized
space (the per-story cosine scores S of the TF-IDF kernel over all
current story texts plus the article text), selects the single
best-scoring story as the first index attaining the maximum
(first-encountered tie-break), merges the article into exactly that
story iff the best score reaches the similarity threshold (constructor
default 0.6), and otherwise creates a new story; with no stories, it
creates a new story unconditionally. -/
theorem dedup_cluster_decision
    (sims : List String → String → List ℚ) (freshId : String)
    (st : DedupState) (a : NewsArticle) (S : List ℚ) (k : ℕ)
    (hkeys : (st.stories.map Prod.fst).Nodup)
    (hS : S = sims (st.stories.map (fun p => storyText p.2)) (articleText a))
    (hlen : S.length = st.stories.length)
    (hk : k = argmaxIdx S) :
    (st.stories = [] →
      processArticle sims freshId st a =
        ({ stories := st.stories ++
             [(freshId, { id := freshId, title := a.title,
                          article_ids := [a.id], embedding := none })],
           similarity_threshold := st.similarity_threshold },
         Except.ok { id := freshId, title := a.title, article_ids := [a.id],
                     embedding := none })) ∧
    (st.stories ≠ [] →
      k < st.stories.length ∧
      (∀ i, i < S.length → S.getD i 0 ≤ S.getD k 0) ∧
      (∀ j, j < k → S.getD j 0 < S.getD k 0) ∧
      (S.getD k 0 < st.similarity_threshold →
        findSimilarStory sims st a = none ∧
        processArticle sims freshId st a =
          ({ stories := st.stories ++
               [(freshId, { id := freshId, title := a.title,
                            article_ids := [a.id], embedding := none })],
             similarity_threshold := st.similarity_threshold },
           Except.ok { id := freshId, title := a.title, article_ids := [a.id],
                       embedding := none })) ∧
      (st.similarity_threshold ≤ S.getD k 0 →
        findSimilarStory sims st a =
          some ((st.stories.map Prod.fst).getD k "") ∧
        (processArticle sims freshId st a).1.stories =
          st.stories.set k
            ((st.stories.map Prod.fst).getD k "",
             { (st.stories.getD k dummyStoryEntry).2 with
               article_ids :=
                 if a.id ∈ (st.stories.getD k dummyStoryEntry).2.article_ids then
                   (st.stories.getD k dummyStoryEntry).2.article_ids
                 else
                   (st.stories.getD k dummyStoryEntry).2.article_ids ++
                     [a.id] }))) := by
  subst hS
  subst hk
  constructor
  · intro hempty
    have hfss : findSimilarStory sims st a = none := by
      simp [findSimilarStory, hempty]
    unfold processArticle
    rw [hfss]
  · intro hne
    have hSne : sims (st.stories.map (fun p => storyText p.2)) (articleText a) ≠ [] := by
      intro h0
      rw [h0] at hlen
      exact hne (List.eq_nil_of_length_eq_zero hlen.symm)
    obtain ⟨hklt, hmax, hfirst⟩ :=
      argmaxIdx_spec (sims (st.stories.map (fun p => storyText p.2)) (articleText a)) hSne
    have hklen : argmaxIdx (sims (st.stories.map (fun p => storyText p.2))
        (articleText a)) < st.stories.length := hlen ▸ hklt
    refine ⟨hklen, hmax, hfirst, ?_, ?_⟩
    · intro hlt
      have hfss : findSimilarStory sims st a = none := by
        simp only [findSimilarStory, if_neg hne]
        rw [if_pos hlt]
      refine ⟨hfss, ?_⟩
      unfold processArticle
      rw [hfss]
    · intro hge
      have hfss : findSimilarStory sims st a =
          some ((st.stories.map Prod.fst).getD
            (argmaxIdx (sims (st.stories.map (fun p => storyText p.2))
              (articleText a))) "") := by
        simp only [findSimilarStory, if_neg hne]
        rw [if_neg (not_lt.mpr hge)]
      refine ⟨hfss, ?_⟩
      have hgd : st.stories.getD
          (argmaxIdx (sims (st.stories.map (fun p => storyText p.2))
            (articleText a))) dummyStoryEntry =
          st.stories.get ⟨_, hklen⟩ :=
        List.getD_eq_getElem _ _ hklen
      simp only [processArticle, hfss, find?_key_eq_get st.stories _ hklen hkeys]
      rw [mapUpdate_eq_set _ st.stories _ hklen hkeys]
      rw [hgd]

/-- Witness for dedup_cluster_decision: the concrete one-story state,
the constant-1.0 similarity kernel and an untagged article discharge
every hypothesis; the merge branch of the conclusion applies at
threshold 0.6 <= 1.0. -/
theorem dedup_cluster_decision_witness :
    ((c1State.stories.map Prod.fst).Nodup) ∧
    ([(1 : ℚ)] =
      c1Sims (c1State.stories.map (fun p => storyText p.2)) (articleText c1Article)) ∧
    ([(1 : ℚ)].length = c1State.stories.length) ∧
    (0 = argmaxIdx [(1 : ℚ)]) ∧
    ((c1State.stories = [] →
      processArticle c1Sims "s2" c1State c1Article =
        ({ stories := c1State.stories ++
             [("s2", { id := "s2", title := c1Article.title,
                       article_ids := [c1Article.id], embedding := none })],
           similarity_threshold := c1State.similarity_threshold },
         Except.ok { id := "s2", title := c1Article.title,
                     article_ids := [c1Article.id], embedding := none })) ∧
    (c1State.stories ≠ [] →
      0 < c1State.stories.length ∧
      (∀ i, i < [(1 : ℚ)].length →
        [(1 : ℚ)].getD i 0 ≤ [(1 : ℚ)].getD 0 0) ∧
      (∀ j, j < 0 → [(1 : ℚ)].getD j 0 < [(1 : ℚ)].getD 0 0) ∧
      ([(1 : ℚ)].getD 0 0 < c1State.similarity_threshold →
        findSimilarStory c1Sims c1State c1Article = none ∧
        processArticle c1Sims "s2" c1State c1Article =
          ({ stories := c1State.stories ++
               [("s2", { id := "s2", title := c1Article.title,
                         article_ids := [c1Article.id], embedding := none })],
             similarity_threshold := c1State.similarity_threshold },
           Except.ok { id := "s2", title := c1Article.title,
                       article_ids := [c1Article.id], embedding := none })) ∧
      (c1State.similarity_threshold ≤ [(1 : ℚ)].getD 0 0 →
        findSimilarStory c1Sims c1State c1Article =
          some ((c1State.stories.map Prod.fst).getD 0 "") ∧
        (processArticle c1Sims "s2" c1State c1Article).1.stories =
          c1State.stories.set 0
            ((c1State.stories.map Prod.fst).getD 0 "",
             { (c1State.stories.getD 0 dummyStoryEntry).2 with
               article_ids :=
                 if c1Article.id ∈
                     (c1State.stories.getD 0 dummyStoryEntry).2.article_ids then
                   (c1State.stories.getD 0 dummyStoryEntry).2.article_ids
                 else
                   (c1State.stories.getD 0 dummyStoryEntry).2.article_ids ++
                     [c1Article.id] })))) :=
  ⟨by decide, by decide, by decide, by decide,
   dedup_cluster_decision c1Sims "s2" c1State c1Article [(1 : ℚ)] 0
     (by decide) (by decide) (by decide) (by decide)⟩

/-- The head of a dropWhile result fails the predicate. -/
theorem dropWhile_head_false (p : Char → Bool) :
    ∀ (l : List Char) (c : Char) (cs : List Char),
    l.dropWhile p = c :: cs → p c = false := by
  intro l
  induction l with
  | nil => intro c cs h; simp at h
  | cons x xs ih =>
    intro c cs h
    by_cases hx : p x
    · rw [List.dropWhile_cons_of_pos hx] at h
      exact ih c cs h
    · rw [List.dropWhile_cons_of_neg hx] at h
      cases h
      simpa using hx

/-- dropWhile is idempotent. -/
theorem dropWhile_idem (p : Char → Bool) (l : List Char) :
    (l.dropWhile p).dropWhile p = l.dropWhile p := by
  cases hd : l.dropWhile p with
  | nil => rfl
  | cons c cs =>
    have hc := dropWhile_head_false p l c cs hd
    rw [List.dropWhile_cons_of_neg (by simp [hc])]

/-- dropWhile is the identity on a list whose head fails the predicate. -/
theorem dropWhile_eq_self_of_head_false (p : Char → Bool) (l : List Char)
    (h : ∀ c cs, l = c :: cs → p c = false) : l.dropWhile p = l := by
  cases l with
  | nil => rfl
  | cons c cs => rw [List.dropWhile_cons_of_neg (by simp [h c cs rfl])]

/-- Python strip is idempotent. -/
theorem trimCL_idem (l : List Char) : trimCL (trimCL l) = trimCL l := by
  have hA : (trimCL l).dropWhile isWsChar = trimCL l := by
    apply dropWhile_eq_self_of_head_false
    intro c cs hcons
    have hpre : trimCL l <+: l.dropWhile isWsChar := by
      have hsuf : ((l.dropWhile isWsChar).reverse.dropWhile isWsChar) <:+
          (l.dropWhile isWsChar).reverse := List.dropWhile_suffix _
      have := List.reverse_prefix.mpr hsuf
      simpa [trimCL] using this
    rcases hpre with ⟨t, ht⟩
    rw [hcons] at ht
    exact dropWhile_head_false isWsChar l c (cs ++ t) (by rw [← ht]; simp)
  have hrev : (trimCL l).reverse =
      (l.dropWhile isWsChar).reverse.dropWhile isWsChar := by
    simp [trimCL]
  calc trimCL (trimCL l)
      = (((trimCL l).dropWhile isWsChar).reverse.dropWhile isWsChar).reverse := rfl
    _ = ((trimCL l).reverse.dropWhile isWsChar).reverse := by rw [hA]
    _ = (((l.dropWhile isWsChar).reverse.dropWhile isWsChar).dropWhile
          isWsChar).reverse := by rw [hrev]
    _ = ((l.dropWhile isWsChar).reverse.dropWhile isWsChar).reverse := by
          rw [dropWhile_idem]
    _ = trimCL l := rfl

/-- Members of the trimmed list are members of the original. -/
theorem mem_of_mem_trimCL {c : Char} {l : List Char} (h : c ∈ trimCL l) :
    c ∈ l := by
  unfold trimCL at h
  rw [List.mem_reverse] at h
  have h1 := (List.dropWhile_sublist isWsChar (l := (l.dropWhile isWsChar).reverse)).subset h
  rw [List.mem_reverse] at h1
  exact (List.dropWhile_sublist isWsChar (l := l)).subset h1

/-- A comma split is never the empty list of pieces. -/
theorem splitCommaCL_ne_nil (l : List Char) : splitCommaCL l ≠ [] := by
  induction l with
  | nil => simp [splitCommaCL]
  | cons c cs ih =>
    unfold splitCommaCL
    by_cases hc : c = ','
    · simp [hc]
    · simp only [if_neg hc]
      cases h : splitCommaCL cs with
      | nil => simp
      | cons h t => simp

/-- Pieces of a comma split contain no comma. -/
theorem splitCommaCL_no_comma :
    ∀ (l : List Char), ∀ q ∈ splitCommaCL l, ',' ∉ q := by
  intro l
  induction l with
  | nil => intro q hq; simp [splitCommaCL] at hq; simp [hq]
  | cons c cs ih =>
    intro q hq
    unfold splitCommaCL at hq
    by_cases hc : c = ','
    · rw [if_pos hc] at hq
      rcases List.mem_cons.mp hq with h | h
      · simp [h]
      · exact ih q h
    · rw [if_neg hc] at hq
      cases hsp : splitCommaCL cs with
      | nil => exact absurd hsp (splitCommaCL_ne_nil cs)
      | cons h t =>
        rw [hsp] at hq
        rcases List.mem_cons.mp hq with hh | hh
        · subst hh
          intro hmem
          rcases List.mem_cons.mp hmem with h1 | h1
          · exact hc h1.symm
          · exact ih h (by rw [hsp]; exact List.mem_cons_self _ _) h1
        · exact ih q (by rw [hsp]; exact List.mem_cons_of_mem _ hh)

/-- Splitting a comma-free list yields that single piece. -/
theorem splitCommaCL_of_no_comma :
    ∀ (l : List Char), ',' ∉ l → splitCommaCL l = [l] := by
  intro l
  induction l with
  | nil => intro _; rfl
  | cons c cs ih =>
    intro h
    have hc : c ≠ ',' := fun hcc => h (hcc ▸ List.mem_cons_self _ _)
    have hcs : ',' ∉ cs := fun hmem => h (List.mem_cons_of_mem _ hmem)
    unfold splitCommaCL
    rw [if_neg hc, ih hcs]

/-- Splitting a list that starts with a comma-free piece followed by a
comma peels off that piece. -/
theorem splitCommaCL_append :
    ∀ (q r : List Char), ',' ∉ q →
    splitCommaCL (q ++ ',' :: r) = q :: splitCommaCL r := by
  intro q
  induction q with
  | nil => intro r _; simp [splitCommaCL]
  | cons c cs ih =>
    intro r h
    have hc : c ≠ ',' := fun hcc => h (hcc ▸ List.mem_cons_self _ _)
    have hcs : ',' ∉ cs := fun hmem => h (List.mem_cons_of_mem _ hmem)
    have hrec := ih r hcs
    simp only [List.cons_append, splitCommaCL, List.append_eq]
    rw [if_neg hc, hrec]

/-- Splitting inverts joining for comma-free pieces. -/
theorem splitCommaCL_joinCommaCL :
    ∀ (pieces : List (List Char)), pieces ≠ [] →
    (∀ q ∈ pieces, ',' ∉ q) →
    splitCommaCL (joinCommaCL pieces) = pieces := by
  intro pieces
  induction pieces with
  | nil => intro h _; exact absurd rfl h
  | cons p rest ih =>
    intro _ hq
    cases rest with
    | nil =>
      show splitCommaCL (joinCommaCL [p]) = [p]
      unfold joinCommaCL
      exact splitCommaCL_of_no_comma p (hq p (List.mem_cons_self _ _))
    | cons q' rest' =>
      show splitCommaCL (joinCommaCL (p :: q' :: rest')) = p :: q' :: rest'
      unfold joinCommaCL
      rw [splitCommaCL_append p _ (hq p (List.mem_cons_self _ _))]
      congr 1
      exact ih (by simp) (fun x hx => hq x (List.mem_cons_of_mem _ hx))

/-- Every tag produced by splitTags is a non-empty, comma-free,
strip-fixed token. -/
theorem splitTags_tokenOk (s : String) : ∀ t ∈ splitTags s, tokenOk t := by
  intro t ht
  unfold splitTags at ht
  rw [List.mem_map] at ht
  obtain ⟨l, hl, hmk⟩ := ht
  rw [List.mem_filter] at hl
  obtain ⟨hmem, hlne⟩ := hl
  rw [List.mem_map] at hmem
  obtain ⟨p, hp, htrim⟩ := hmem
  have htl : t.toList = l := by rw [← hmk]; rfl
  refine ⟨?_, ?_, ?_⟩
  · rw [htl]
    simpa using hlne
  · rw [htl]
    intro hc
    exact splitCommaCL_no_comma s.toList p hp
      (mem_of_mem_trimCL (htrim ▸ hc))
  · rw [htl, ← htrim, trimCL_idem]

/-- splitTags inverts joinTags on lists of well-formed tokens. -/
theorem splitTags_joinTags (tags : List String)
    (h : ∀ t ∈ tags, tokenOk t) : splitTags (joinTags tags) = tags := by
  cases tags with
  | nil => rfl
  | cons t ts =>
    unfold splitTags joinTags
    have h1 : (String.mk (joinCommaCL ((t :: ts).map String.toList))).toList =
        joinCommaCL ((t :: ts).map String.toList) := rfl
    rw [h1]
    rw [splitCommaCL_joinCommaCL _ (by simp)
      (by
        intro q hq
        rw [List.mem_map] at hq
        obtain ⟨u, hu, rfl⟩ := hq
        exact (h u hu).2.1)]
    rw [List.map_map]
    have h2 : (t :: ts).map (trimCL ∘ String.toList) =
        (t :: ts).map String.toList := by
      apply List.map_congr_left
      intro u hu
      exact (h u hu).2.2
    rw [h2]
    have h3 : ((t :: ts).map String.toList).filter (fun l => l ≠ []) =
        (t :: ts).map String.toList := by
      rw [List.filter_eq_self]
      intro l hl
      rw [List.mem_map] at hl
      obtain ⟨u, hu, rfl⟩ := hl
      simpa using (h u hu).1
    rw [h3, List.map_map]
    have h4 : (t :: ts).map ((fun l => String.mk l) ∘ String.toList) =
        (t :: ts).map id := by
      apply List.map_congr_left
      intro u _
      rfl
    rw [h4, List.map_id]

/-- Membership in the tag-merge fold of _add_impact: the merged list
holds exactly the current tags plus the new ones. -/
theorem mem_foldl_tagMerge (x : String) :
    ∀ (news cur : List String),
    (x ∈ news.foldl (fun cur t => if t ∈ cur then cur else cur ++ [t]) cur ↔
      x ∈ cur ∨ x ∈ news) := by
  intro news
  induction news with
  | nil => intro cur; simp
  | cons t rest ih =>
    intro cur
    rw [List.foldl_cons]
    by_cases ht : t ∈ cur
    · rw [if_pos ht, ih]
      simp only [List.mem_cons]
      constructor
      · rintro (h | h)
        · exact Or.inl h
        · exact Or.inr (Or.inr h)
      · rintro (h | h | h)
        · exact Or.inl h
        · exact Or.inl (h ▸ ht)
        · exact Or.inr h
    · rw [if_neg ht, ih]
      simp only [List.mem_append, List.mem_cons, List.not_mem_nil, or_false]
      constructor
      · rintro ((h | h) | h)
        · exact Or.inl h
        · exact Or.inr (Or.inl h)
        · exact Or.inr (Or.inr h)
      · rintro (h | h | h)
        · exact Or.inl (Or.inl h)
        · exact Or.inl (Or.inr h)
        · exact Or.inr h

/-- Characterization of folding _add_impact merge steps over an
existing slot: the slot stays occupied, the symbol is unchanged, the
confidence is the running maximum (attained by the start value or some
signal, never an average or sum), and the stored tag set grows to the
union. -/
theorem applyFold_spec (symbol : String) :
    ∀ (sigs : List (ℚ × String)) (st0 : ImpactedStock),
    ∃ st, sigs.foldl (applySignalStep symbol) (some st0) = some st ∧
      st.symbol = st0.symbol ∧
      st0.confidence ≤ st.confidence ∧
      (∀ s ∈ sigs, s.1 ≤ st.confidence) ∧
      (st.confidence = st0.confidence ∨ ∃ s ∈ sigs, st.confidence = s.1) ∧
      (∀ t, t ∈ splitTags st.impact_type ↔
        t ∈ splitTags st0.impact_type ∨ ∃ s ∈ sigs, t ∈ splitTags s.2) := by
  intro sigs
  induction sigs with
  | nil =>
    intro st0
    exact ⟨st0, rfl, rfl, le_refl _, by simp, Or.inl rfl, by simp⟩
  | cons s rest ih =>
    intro st0
    have hstep : applySignalStep symbol (some st0) s =
        some (mergeImpact st0 s.2 s.1) := rfl
    have hconf : (mergeImpact st0 s.2 s.1).confidence =
        if st0.confidence < s.1 then s.1 else st0.confidence := rfl
    have himp : (mergeImpact st0 s.2 s.1).impact_type =
        joinTags ((splitTags s.2).foldl
          (fun cur t => if t ∈ cur then cur else cur ++ [t])
          (splitTags st0.impact_type)) := rfl
    have hsplit : splitTags (mergeImpact st0 s.2 s.1).impact_type =
        (splitTags s.2).foldl
          (fun cur t => if t ∈ cur then cur else cur ++ [t])
          (splitTags st0.impact_type) := by
      rw [himp]
      apply splitTags_joinTags
      intro u hu
      rw [mem_foldl_tagMerge] at hu
      rcases hu with h | h
      · exact splitTags_tokenOk _ u h
      · exact splitTags_tokenOk _ u h
    have htags : ∀ t, t ∈ splitTags (mergeImpact st0 s.2 s.1).impact_type ↔
        t ∈ splitTags st0.impact_type ∨ t ∈ splitTags s.2 := by
      intro t
      rw [hsplit, mem_foldl_tagMerge]
    have h01 : st0.confidence ≤ (mergeImpact st0 s.2 s.1).confidence := by
      rw [hconf]
      by_cases h : st0.confidence < s.1
      · rw [if_pos h]; exact le_of_lt h
      · rw [if_neg h]
    have hs1 : s.1 ≤ (mergeImpact st0 s.2 s.1).confidence := by
      rw [hconf]
      by_cases h : st0.confidence < s.1
      · rw [if_pos h]
      · rw [if_neg h]; exact le_of_not_lt h
    have hdisj1 : (mergeImpact st0 s.2 s.1).confidence = st0.confidence ∨
        (mergeImpact st0 s.2 s.1).confidence = s.1 := by
      rw [hconf]
      by_cases h : st0.confidence < s.1
      · rw [if_pos h]; exact Or.inr rfl
      · rw [if_neg h]; exact Or.inl rfl
    obtain ⟨st, hfold, hsym, hle, hall, hdis, htag⟩ := ih (mergeImpact st0 s.2 s.1)
    refine ⟨st, ?_, hsym, le_trans h01 hle, ?_, ?_, ?_⟩
    · rw [List.foldl_cons, hstep]
      exact hfold
    · intro s' hs'
      rcases List.mem_cons.mp hs' with h | h
      · exact h ▸ le_trans hs1 hle
      · exact hall s' h
    · rcases hdis with h | ⟨s', hs', hconf'⟩
      · rcases hdisj1 with h1 | h1
        · exact Or.inl (h.trans h1)
        · exact Or.inr ⟨s, List.mem_cons_self _ _, h.trans h1⟩
      · exact Or.inr ⟨s', List.mem_cons_of_mem _ hs', hconf'⟩
    · intro t
      rw [htag t]
      constructor
      · rintro (h | ⟨s', hs', h⟩)
        · rcases (htags t).mp h with h1 | h1
          · exact Or.inl h1
          · exact Or.inr ⟨s, List.mem_cons_self _ _, h1⟩
        · exact Or.inr ⟨s', List.mem_cons_of_mem _ hs', h⟩
      · rintro (h | ⟨s', hs', h⟩)
        · exact Or.inl ((htags t).mpr (Or.inl h))
        · rcases List.mem_cons.mp hs' with h1 | h1
          · exact Or.inl ((htags t).mpr (Or.inr (h1 ▸ h)))
          · exact Or.inr ⟨s', h1, h⟩

/-- Main characterization of the per-symbol merge: a non-empty signal
list leaves exactly one occupied record, with the given symbol, the
maximum confidence over all signals (attained, never averaged or
summed), and the union of all signals' tags as its impact-type set. -/
theorem applySignals_spec (symbol : String) (sigs : List (ℚ × String))
    (hne : sigs ≠ []) :
    ∃ st, applySignals symbol sigs = some st ∧ st.symbol = symbol ∧
      (∀ s ∈ sigs, s.1 ≤ st.confidence) ∧
      (∃ s ∈ sigs, st.confidence = s.1) ∧
      (∀ t, t ∈ splitTags st.impact_type ↔ ∃ s ∈ sigs, t ∈ splitTags s.2) := by
  match sigs with
  | [] => exact absurd rfl hne
  | s :: rest =>
    have hinit : applySignals symbol (s :: rest) =
        rest.foldl (applySignalStep symbol)
          (some { symbol := symbol, confidence := s.1, impact_type := s.2 }) := rfl
    obtain ⟨st, hfold, hsym, h0le, hall, hdis, htag⟩ :=
      applyFold_spec symbol rest
        { symbol := symbol, confidence := s.1, impact_type := s.2 }
    refine ⟨st, by rw [hinit]; exact hfold, hsym, ?_, ?_, ?_⟩
    · intro s' hs'
      rcases List.mem_cons.mp hs' with h | h
      · exact h ▸ h0le
      · exact hall s' h
    · rcases hdis with h | ⟨s', hs', h⟩
      · exact ⟨s, List.mem_cons_self _ _, h⟩
      · exact ⟨s', List.mem_cons_of_mem _ hs', h⟩
    · intro t
      rw [htag t]
      constructor
      · rintro (h | ⟨s', hs', h⟩)
        · exact ⟨s, List.mem_cons_self _ _, h⟩
        · exact ⟨s', List.mem_cons_of_mem _ hs', h⟩
      · rintro ⟨s', hs', h⟩
        rcases List.mem_cons.mp hs' with h1 | h1
        · exact Or.inl (h1 ▸ h)
        · exact Or.inr ⟨s', h1, h⟩

/-- C2: for a fixed symbol, applying any non-empty finite collection
of impact signals yields exactly one ImpactedEntity record whose
confidence is the maximum signal confidence (attained by some signal,
never an average or sum) and whose impact-type tag set is the union of
the signals' tag sets; and for every reordering of the signals the
resulting record has the same symbol, the same confidence and the same
impact-type tag set (merging is commutative and associative on the
record read as symbol, confidence and tag set). -/
theorem impact_merge_rule (symbol : String) (sigs : List (ℚ × String))
    (hne : sigs ≠ []) :
    ∃ st, applySignals symbol sigs = some st ∧ st.symbol = symbol ∧
      (∀ s ∈ sigs, s.1 ≤ st.confidence) ∧
      (∃ s ∈ sigs, st.confidence = s.1) ∧
      (∀ t, t ∈ splitTags st.impact_type ↔ ∃ s ∈ sigs, t ∈ splitTags s.2) ∧
      (∀ sigs2, sigs.Perm sigs2 →
        ∃ st2, applySignals symbol sigs2 = some st2 ∧ st2.symbol = symbol ∧
          st2.confidence = st.confidence ∧
          (∀ t, t ∈ splitTags st2.impact_type ↔
            t ∈ splitTags st.impact_type)) := by
  obtain ⟨st, happ, hsym, hle, hattain, htag⟩ := applySignals_spec symbol sigs hne
  refine ⟨st, happ, hsym, hle, hattain, htag, ?_⟩
  intro sigs2 hperm
  have hne2 : sigs2 ≠ [] := by
    intro h
    rw [h] at hperm
    have hl := hperm.length_eq
    simp at hl
    exact hne hl
  obtain ⟨st2, happ2, hsym2, hle2, hattain2, htag2⟩ :=
    applySignals_spec symbol sigs2 hne2
  refine ⟨st2, happ2, hsym2, ?_, ?_⟩
  · obtain ⟨s1, hs1, he1⟩ := hattain
    obtain ⟨s2, hs2, he2⟩ := hattain2
    apply le_antisymm
    · rw [he2]
      exact hle s2 (hperm.mem_iff.mpr hs2)
    · rw [he1]
      exact hle2 s1 (hperm.mem_iff.mp hs1)
  · intro t
    rw [htag2 t, htag t]
    constructor
    · rintro ⟨s', hs', h⟩
      exact ⟨s', hperm.mem_iff.mpr hs', h⟩
    · rintro ⟨s', hs', h⟩
      exact ⟨s', hperm.mem_iff.mp hs', h⟩

/-- Witness for impact_merge_rule: a direct signal at confidence 1.0
and a sector signal at confidence 0.7 for one symbol. -/
theorem impact_merge_rule_witness :
    ([((1 : ℚ), "direct"), (mkRat 7 10, "sector")] ≠ ([] : List (ℚ × String))) ∧
    (∃ st, applySignals "HDFCBANK"
        [((1 : ℚ), "direct"), (mkRat 7 10, "sector")] = some st ∧
      st.symbol = "HDFCBANK" ∧
      (∀ s ∈ [((1 : ℚ), "direct"), (mkRat 7 10, "sector")],
        s.1 ≤ st.confidence) ∧
      (∃ s ∈ [((1 : ℚ), "direct"), (mkRat 7 10, "sector")],
        st.confidence = s.1) ∧
      (∀ t, t ∈ splitTags st.impact_type ↔
        ∃ s ∈ [((1 : ℚ), "direct"), (mkRat 7 10, "sector")],
          t ∈ splitTags s.2) ∧
      (∀ sigs2, List.Perm [((1 : ℚ), "direct"), (mkRat 7 10, "sector")] sigs2 →
        ∃ st2, applySignals "HDFCBANK" sigs2 = some st2 ∧
          st2.symbol = "HDFCBANK" ∧
          st2.confidence = st.confidence ∧
          (∀ t, t ∈ splitTags st2.impact_type ↔
            t ∈ splitTags st.impact_type))) :=
  ⟨by decide,
   impact_merge_rule "HDFCBANK" [((1 : ℚ), "direct"), (mkRat 7 10, "sector")]
     (by decide)⟩

/-- On the well-formed impact-type strings, the Python substring test
for direct agrees with membership of direct in the tag set. -/
theorem wf_contains_direct : ∀ s ∈ wellFormedTypes,
    containsStr s "direct" = decide ("direct" ∈ splitTags s) := by decide

/-- Pointwise-equal predicates give equal any. -/
theorem any_congr {α : Type} (l : List α) (p q : α → Bool)
    (h : ∀ a ∈ l, p a = q a) : l.any p = l.any q := by
  induction l with
  | nil => rfl
  | cons a l ih =>
    simp only [List.any_cons]
    rw [h a (List.mem_cons_self _ _), ih (fun b hb => h b (List.mem_cons_of_mem _ hb))]

/-- The entity-scoring loop over impacted stocks is a running maximum:
it returns the incoming score maxed with 1.0 when some overlapping
entry carries the direct substring, else with 0.8 when some entry
overlaps, else with 0. -/
theorem entityFold_eq (overlap : List String) (l : List ImpactedStock) :
    ∀ s0 : ℚ, 0 ≤ s0 →
    l.foldl (fun sc is =>
      if is.symbol ∈ overlap then
        (if containsStr is.impact_type "direct" then max sc 1
         else max sc (mkRat 4 5))
      else sc) s0
    = max s0
        (if l.any (fun is => decide (is.symbol ∈ overlap) &&
            containsStr is.impact_type "direct") then 1
         else if l.any (fun is => decide (is.symbol ∈ overlap)) then mkRat 4 5
         else 0) := by
  induction l with
  | nil => intro s0 h0; simp [max_eq_left h0]
  | cons is l ih =>
    intro s0 h0
    rw [List.foldl_cons]
    by_cases hm : is.symbol ∈ overlap
    · by_cases hd : containsStr is.impact_type "direct" = true
      · rw [if_pos hm, if_pos hd,
          ih (max s0 1) (le_trans h0 (le_max_left _ _))]
        have hhead : (is :: l).any (fun is => decide (is.symbol ∈ overlap) &&
            containsStr is.impact_type "direct") = true := by
          simp [List.any_cons, hm, hd]
        rw [if_pos hhead]
        have htail : (if l.any (fun is => decide (is.symbol ∈ overlap) &&
            containsStr is.impact_type "direct") then (1 : ℚ)
          else if l.any (fun is => decide (is.symbol ∈ overlap)) then mkRat 4 5
          else 0) ≤ 1 := by
          split_ifs <;> decide
        rw [max_assoc, max_eq_left htail]
      · rw [if_pos hm, if_neg hd,
          ih (max s0 (mkRat 4 5)) (le_trans h0 (le_max_left _ _))]
        have hheadD : ((is :: l).any (fun is => decide (is.symbol ∈ overlap) &&
            containsStr is.impact_type "direct")) =
            (l.any (fun is => decide (is.symbol ∈ overlap) &&
              containsStr is.impact_type "direct")) := by
          simp only [List.any_cons]
          rw [Bool.and_eq_false_iff.mpr (Or.inr (by simpa using hd))]
          simp
        have hheadP : ((is :: l).any
            (fun is => decide (is.symbol ∈ overlap))) = true := by
          simp [List.any_cons, hm]
        rw [hheadD, hheadP]
        by_cases hld : l.any (fun is => decide (is.symbol ∈ overlap) &&
            containsStr is.impact_type "direct") = true
        · rw [if_pos hld, if_pos hld]
          rw [max_assoc]
          congr 1
        · rw [if_neg hld, if_neg hld, if_pos rfl]
          have htail : (if l.any (fun is => decide (is.symbol ∈ overlap)) then
              mkRat 4 5 else (0 : ℚ)) ≤ mkRat 4 5 := by
            split_ifs <;> decide
          rw [max_assoc, max_eq_left htail]
    · rw [if_neg hm, ih s0 h0]
      have hheadD : ((is :: l).any (fun is => decide (is.symbol ∈ overlap) &&
          containsStr is.impact_type "direct")) =
          (l.any (fun is => decide (is.symbol ∈ overlap) &&
            containsStr is.impact_type "direct")) := by
        simp [List.any_cons, hm]
      have hheadP : ((is :: l).any (fun is => decide (is.symbol ∈ overlap))) =
          (l.any (fun is => decide (is.symbol ∈ overlap))) := by
        simp [List.any_cons, hm]
      rw [hheadD, hheadP]

/-- The guarded sector/regulator step collapses: the emptiness guard
is redundant because any on the empty list is false. -/
theorem gate_any_collapse (cond : List String) (P : String → Bool)
    (s1 c : ℚ) :
    (if cond ≠ [] then (if cond.any P then max s1 c else s1) else s1) =
    (if cond.any P then max s1 c else s1) := by
  by_cases h : cond = []
  · subst h; simp
  · rw [if_pos h]

/-- A conditional max step is a max with a conditional component. -/
theorem if_then_max (b : Bool) (s1 c : ℚ) (h0 : 0 ≤ s1) :
    (if b = true then max s1 c else s1) = max s1 (if b = true then c else 0) := by
  cases b
  · simp [max_eq_left h0]
  · simp

/-- C5: for well-formed stories (impact-type strings drawn from the
direct/sector/regulatory tag joins), the entity-match score of the
search loop equals the maximum of the claim components: 1.0 for a
ticker overlap with a direct tag, 0.8 for a ticker overlap without
one, 0.7 for a sector intersection, 0.9 for a regulator intersection,
and 0.0 when none apply. -/
theorem entity_score_formula (query_tickers sectors regulators : List String)
    (story : StoryWithImpact)
    (hwf : ∀ is ∈ story.impacted_stocks, is.impact_type ∈ wellFormedTypes) :
    entityScore query_tickers sectors regulators story =
      claimEntityScore query_tickers sectors regulators story := by
  simp only [entityScore, claimEntityScore, tickerMatchValue]
  have hS1 : (if query_tickers ≠ [] then
      (if (story.impacted_stocks.map (fun is => is.symbol)).filter
          (fun t => decide (t ∈ query_tickers)) ≠ [] then
        story.impacted_stocks.foldl
          (fun sc is =>
            if is.symbol ∈ (story.impacted_stocks.map (fun is => is.symbol)).filter
                (fun t => decide (t ∈ query_tickers)) then
              (if containsStr is.impact_type "direct" then max sc 1
               else max sc (mkRat 4 5))
            else sc) 0
      else 0)
    else 0) =
      max 0 (if (story.impacted_stocks.map (fun is => is.symbol)).filter
          (fun t => decide (t ∈ query_tickers)) ≠ [] then
        (if story.impacted_stocks.any
            (fun is => decide (is.symbol ∈
                (story.impacted_stocks.map (fun is => is.symbol)).filter
                  (fun t => decide (t ∈ query_tickers))) &&
              decide ("direct" ∈ splitTags is.impact_type)) then 1
         else mkRat 4 5)
      else 0) := by
    by_cases hqt : query_tickers = []
    · have hov0 : (story.impacted_stocks.map (fun is => is.symbol)).filter
          (fun t => decide (t ∈ query_tickers)) = [] := by
        subst hqt
        simp
      rw [if_neg (not_not.mpr hqt), hov0]
      simp
    · rw [if_pos hqt]
      by_cases hove : (story.impacted_stocks.map (fun is => is.symbol)).filter
          (fun t => decide (t ∈ query_tickers)) = []
      · rw [if_neg (not_not.mpr hove), if_neg (not_not.mpr hove)]
        simp
      · rw [if_pos hove, if_pos hove,
          entityFold_eq _ story.impacted_stocks 0 (le_refl 0)]
        congr 1
        have hbridge : story.impacted_stocks.any
            (fun is => decide (is.symbol ∈
                (story.impacted_stocks.map (fun is => is.symbol)).filter
                  (fun t => decide (t ∈ query_tickers))) &&
              containsStr is.impact_type "direct") =
            story.impacted_stocks.any
            (fun is => decide (is.symbol ∈
                (story.impacted_stocks.map (fun is => is.symbol)).filter
                  (fun t => decide (t ∈ query_tickers))) &&
              decide ("direct" ∈ splitTags is.impact_type)) := by
          apply any_congr
          intro is his
          rw [wf_contains_direct is.impact_type (hwf is his)]
        have hanyOv : story.impacted_stocks.any
            (fun is => decide (is.symbol ∈
                (story.impacted_stocks.map (fun is => is.symbol)).filter
                  (fun t => decide (t ∈ query_tickers)))) = true := by
          obtain ⟨x, hx⟩ := List.exists_mem_of_ne_nil _ hove
          have hx' := hx
          rw [List.mem_filter] at hx'
          obtain ⟨hxm, _⟩ := hx'
          rw [List.mem_map] at hxm
          obtain ⟨is, his, hsym⟩ := hxm
          rw [List.any_eq_true]
          exact ⟨is, his, by simp [hsym ▸ hx]⟩
        rw [hbridge, hanyOv]
        simp
  rw [hS1]
  rw [gate_any_collapse sectors _ _ _]
  rw [if_then_max _ _ _ (le_max_left 0 _)]
  rw [gate_any_collapse regulators _ _ _]
  rw [if_then_max _ _ _
    (le_trans (le_max_left 0 _) (le_max_left _ _))]

/-- Witness for entity_score_formula: the RBI scenario - a query
detected only as regulator RBI against a story tagged with regulator
RBI and no ticker/company overlap scores exactly 0.9. -/
theorem entity_score_formula_witness :
    (∀ is ∈ (⟨"s9", "RBI policy changes", [], none, none, [], ["RBI"], [],
        [], [], none, none⟩ : StoryWithImpact).impacted_stocks,
      is.impact_type ∈ wellFormedTypes) ∧
    entityScore [] [] ["RBI"]
      ⟨"s9", "RBI policy changes", [], none, none, [], ["RBI"], [],
        [], [], none, none⟩ =
      claimEntityScore [] [] ["RBI"]
        ⟨"s9", "RBI policy changes", [], none, none, [], ["RBI"], [],
          [], [], none, none⟩ ∧
    entityScore [] [] ["RBI"]
      ⟨"s9", "RBI policy changes", [], none, none, [], ["RBI"], [],
        [], [], none, none⟩ =
      mkRat 9 10 :=
  ⟨by decide,
   entity_score_formula [] [] ["RBI"] _ (by decide),
   by decide⟩

/-- C6: the semantic pass rewrites every indexed story's score as the
claim states - a story without a cached embedding keeps its bare
entity score; for a query with no detected entities at all the score
becomes max(entity score, similarity) when the similarity is at least
0.3 and is unchanged otherwise; for a query with at least one entity
the score becomes entity score + 0.2 x similarity. -/
theorem semantic_score_formula (extract : String → NerOut)
    (embedFn : String → List ℚ) (stories : List StoryWithImpact)
    (query : String) :
    searchAdjusted extract embedFn stories query =
      stories.map (fun s =>
        (s, claimAdjustedScore (extract query) (embedFn query) s)) := by
  simp only [searchAdjusted, claimAdjustedScore, semanticAdjust]
  apply List.map_congr_left
  intro s _
  rcases hse : s.embedding with _ | emb
  · simp only [hse]
  · simp only [hse]
    have hiff : noEntityQuery (extract query) = true ↔
        ((extract query).companies = [] ∧ (extract query).sectors = [] ∧
         (extract query).regulators = [] ∧
         companiesToTickers (extract query).companies ++
           (extract query).tickers = []) := by
      simp [noEntityQuery]
      tauto
    by_cases hc : ((extract query).companies = [] ∧ (extract query).sectors = [] ∧
        (extract query).regulators = [] ∧
        companiesToTickers (extract query).companies ++ (extract query).tickers = [])
    · rw [if_pos (hiff.mpr hc), if_pos hc]
    · rw [if_neg (fun h => hc (hiff.mp h)), if_neg hc]

/-- The stable descending insert is a permutation step. -/
theorem insertDesc_perm (x : StoryWithImpact × ℚ) (l : List (StoryWithImpact × ℚ)) :
    (insertDesc x l).Perm (x :: l) := by
  induction l with
  | nil => exact List.Perm.refl _
  | cons y ys ih =>
    unfold insertDesc
    by_cases h : y.2 < x.2
    · rw [if_pos h]
    · rw [if_neg h]
      exact (ih.cons y).trans (List.Perm.swap x y ys)

/-- The stable descending insert preserves descending sortedness. -/
theorem insertDesc_sorted (x : StoryWithImpact × ℚ)
    (l : List (StoryWithImpact × ℚ))
    (h : l.Pairwise (fun a b => b.2 ≤ a.2)) :
    (insertDesc x l).Pairwise (fun a b => b.2 ≤ a.2) := by
  induction l with
  | nil => simp [insertDesc]
  | cons y ys ih =>
    rw [List.pairwise_cons] at h
    unfold insertDesc
    by_cases hc : y.2 < x.2
    · rw [if_pos hc]
      rw [List.pairwise_cons]
      refine ⟨?_, List.pairwise_cons.mpr ⟨h.1, h.2⟩⟩
      intro b hb
      rcases List.mem_cons.mp hb with hb | hb
      · exact hb ▸ le_of_lt hc
      · exact le_trans (h.1 b hb) (le_of_lt hc)
    · rw [if_neg hc]
      rw [List.pairwise_cons]
      refine ⟨?_, ih h.2⟩
      intro b hb
      rcases List.mem_cons.mp ((insertDesc_perm x ys).mem_iff.mp hb) with hb | hb
      · exact hb ▸ le_of_not_lt hc
      · exact h.1 b hb

/-- Stability of the descending insert: on a sorted list, the new
element lands after every existing element of equal score, so the
per-score slices gain the new element at the end. -/
theorem insertDesc_filter (x : StoryWithImpact × ℚ)
    (l : List (StoryWithImpact × ℚ)) (v : ℚ)
    (hsorted : l.Pairwise (fun a b => b.2 ≤ a.2)) :
    (insertDesc x l).filter (fun p => decide (p.2 = v)) =
      if x.2 = v then l.filter (fun p => decide (p.2 = v)) ++ [x]
      else l.filter (fun p => decide (p.2 = v)) := by
  induction l with
  | nil =>
    by_cases hxv : x.2 = v
    · rw [if_pos hxv]
      simp [insertDesc, hxv]
    · rw [if_neg hxv]
      simp [insertDesc, hxv]
  | cons y ys ih =>
    rw [List.pairwise_cons] at hsorted
    unfold insertDesc
    by_cases hc : y.2 < x.2
    · rw [if_pos hc]
      by_cases hxv : x.2 = v
      · rw [if_pos hxv]
        have hyv : ¬(y.2 = v) := fun h => (h ▸ hc).ne (hxv ▸ rfl)
        have hys : ∀ b ∈ ys, ¬(b.2 = v) := by
          intro b hb hbv
          exact absurd (hbv ▸ (lt_of_le_of_lt (hsorted.1 b hb) hc)) (by
            rw [hxv]
            exact lt_irrefl v)
        have hfil : ys.filter (fun p => decide (p.2 = v)) = [] := by
          rw [List.filter_eq_nil_iff]
          intro b hb
          simp [hys b hb]
        rw [List.filter_cons_of_pos (by simp [hxv]),
          List.filter_cons_of_neg (by simp [hyv]), hfil]
        simp
      · rw [if_neg hxv]
        rw [List.filter_cons_of_neg (by simp [hxv])]
    · rw [if_neg hc]
      by_cases hyv : y.2 = v
      · rw [List.filter_cons_of_pos (by simp [hyv]), ih hsorted.2,
          List.filter_cons_of_pos (by simp [hyv])]
        by_cases hxv : x.2 = v
        · rw [if_pos hxv, if_pos hxv, List.cons_append]
        · rw [if_neg hxv, if_neg hxv]
      · rw [List.filter_cons_of_neg (by simp [hyv]), ih hsorted.2,
          List.filter_cons_of_neg (by simp [hyv])]

/-- The sort fold permutes: the accumulated result holds exactly the
accumulator plus the remaining input. -/
theorem sortFold_perm (l : List (StoryWithImpact × ℚ)) :
    ∀ acc, (l.foldl (fun acc x => insertDesc x acc) acc).Perm (acc ++ l) := by
  induction l with
  | nil => intro acc; simp
  | cons x l ih =>
    intro acc
    rw [List.foldl_cons]
    refine (ih (insertDesc x acc)).trans ?_
    refine (List.Perm.append_right l (insertDesc_perm x acc)).trans ?_
    exact (List.perm_middle).symm

/-- The sort fold keeps the accumulator sorted. -/
theorem sortFold_sorted (l : List (StoryWithImpact × ℚ)) :
    ∀ acc, acc.Pairwise (fun a b => b.2 ≤ a.2) →
    (l.foldl (fun acc x => insertDesc x acc) acc).Pairwise
      (fun a b => b.2 ≤ a.2) := by
  induction l with
  | nil => intro acc h; exact h
  | cons x l ih =>
    intro acc h
    rw [List.foldl_cons]
    exact ih _ (insertDesc_sorted x acc h)

/-- Stability of the sort fold: per-score slices of the result are the
accumulator slice followed by the input slice in input order. -/
theorem sortFold_filter (v : ℚ) (l : List (StoryWithImpact × ℚ)) :
    ∀ acc, acc.Pairwise (fun a b => b.2 ≤ a.2) →
    (l.foldl (fun acc x => insertDesc x acc) acc).filter
        (fun p => decide (p.2 = v)) =
      acc.filter (fun p => decide (p.2 = v)) ++
        l.filter (fun p => decide (p.2 = v)) := by
  induction l with
  | nil => intro acc _; simp
  | cons x l ih =>
    intro acc h
    rw [List.foldl_cons, ih _ (insertDesc_sorted x acc h),
      insertDesc_filter x acc v h]
    by_cases hxv : x.2 = v
    · rw [if_pos hxv, List.filter_cons_of_pos (by simp [hxv])]
      simp [List.append_assoc]
    · rw [if_neg hxv, List.filter_cons_of_neg (by simp [hxv])]

/-- C3: the search contract - search on an empty index returns the
empty list; every returned pair scores at least min_score; scores are
non-increasing along the result; the result holds at most top_k
entries; the result is the first top_k entries of the stable descending sort
of the filtered scored list; and sorting preserves, for every score
value, the original index order of the equal-score entries (stable
sort). -/
theorem search_ranking_contract (extract : String → NerOut)
    (embedFn : String → List ℚ) (stories : List StoryWithImpact)
    (query : String) (top_k : ℕ) (min_score : ℚ) :
    search extract embedFn [] query top_k min_score = [] ∧
    (∀ p ∈ search extract embedFn stories query top_k min_score,
      min_score ≤ p.2) ∧
    (search extract embedFn stories query top_k min_score).Pairwise
      (fun a b => b.2 ≤ a.2) ∧
    (search extract embedFn stories query top_k min_score).length ≤ top_k ∧
    search extract embedFn stories query top_k min_score =
      (sortDesc (searchScored extract embedFn stories query min_score)).take
        top_k ∧
    (∀ v, (sortDesc (searchScored extract embedFn stories query
        min_score)).filter (fun p => decide (p.2 = v)) =
      (searchScored extract embedFn stories query min_score).filter
        (fun p => decide (p.2 = v))) := by
  have hsd : ∀ l : List (StoryWithImpact × ℚ),
      sortDesc l = l.foldl (fun acc x => insertDesc x acc) [] :=
    fun _ => rfl
  have hempty : search extract embedFn [] query top_k min_score = [] := rfl
  have heq : search extract embedFn stories query top_k min_score =
      (sortDesc (searchScored extract embedFn stories query min_score)).take
        top_k := by
    by_cases h : stories = []
    · subst h
      rw [hempty]
      unfold searchScored searchAdjusted
      simp [sortDesc]
    · unfold search
      rw [if_neg h]
  have hsorted : (sortDesc (searchScored extract embedFn stories query
      min_score)).Pairwise (fun a b => b.2 ≤ a.2) := by
    rw [hsd]
    exact sortFold_sorted _ [] List.Pairwise.nil
  have hperm : (sortDesc (searchScored extract embedFn stories query
      min_score)).Perm (searchScored extract embedFn stories query min_score) := by
    rw [hsd]
    have := sortFold_perm (searchScored extract embedFn stories query min_score) []
    simpa using this
  refine ⟨hempty, ?_, ?_, ?_, heq, ?_⟩
  · intro p hp
    rw [heq] at hp
    have hp2 : p ∈ sortDesc (searchScored extract embedFn stories query
        min_score) := (List.take_sublist _ _).subset hp
    have hp3 : p ∈ searchScored extract embedFn stories query min_score :=
      hperm.mem_iff.mp hp2
    unfold searchScored at hp3
    rw [List.mem_filter] at hp3
    simpa using hp3.2
  · rw [heq]
    exact List.Pairwise.sublist (List.take_sublist _ _) hsorted
  · rw [heq, List.length_take]
    exact min_le_left _ _
  · intro v
    rw [hsd]
    have := sortFold_filter v
      (searchScored extract embedFn stories query min_score) []
      List.Pairwise.nil
    simpa using this

/-- Witness for search_ranking_contract at a concrete instantiation:
a one-story index, a trivial entity extractor and embedder, top_k 5
and min_score 0.05. -/
theorem search_ranking_contract_witness :
    search (fun _ => ⟨[], [], ["RBI"], []⟩) (fun _ => [])
      [⟨"s9", "RBI policy changes", [], none, none, [], ["RBI"], [],
        [], [], none, none⟩] "RBI policy changes" 5 (mkRat 1 20) = [] ∨
    ((search (fun _ => ⟨[], [], ["RBI"], []⟩) (fun _ => []) [] "RBI policy changes"
        5 (mkRat 1 20) = []) ∧
    (∀ p ∈ search (fun _ => ⟨[], [], ["RBI"], []⟩) (fun _ => [])
        [⟨"s9", "RBI policy changes", [], none, none, [], ["RBI"], [],
          [], [], none, none⟩] "RBI policy changes" 5 (mkRat 1 20),
      mkRat 1 20 ≤ p.2) ∧
    (search (fun _ => ⟨[], [], ["RBI"], []⟩) (fun _ => [])
        [⟨"s9", "RBI policy changes", [], none, none, [], ["RBI"], [],
          [], [], none, none⟩] "RBI policy changes" 5 (mkRat 1 20)).Pairwise
      (fun a b => b.2 ≤ a.2) ∧
    (search (fun _ => ⟨[], [], ["RBI"], []⟩) (fun _ => [])
        [⟨"s9", "RBI policy changes", [], none, none, [], ["RBI"], [],
          [], [], none, none⟩] "RBI policy changes" 5 (mkRat 1 20)).length ≤ 5 ∧
    search (fun _ => ⟨[], [], ["RBI"], []⟩) (fun _ => [])
        [⟨"s9", "RBI policy changes", [], none, none, [], ["RBI"], [],
          [], [], none, none⟩] "RBI policy changes" 5 (mkRat 1 20) =
      (sortDesc (searchScored (fun _ => ⟨[], [], ["RBI"], []⟩) (fun _ => [])
        [⟨"s9", "RBI policy changes", [], none, none, [], ["RBI"], [],
          [], [], none, none⟩] "RBI policy changes" (mkRat 1 20))).take 5 ∧
    (∀ v, (sortDesc (searchScored (fun _ => ⟨[], [], ["RBI"], []⟩)
        (fun _ => [])
        [⟨"s9", "RBI policy changes", [], none, none, [], ["RBI"], [],
          [], [], none, none⟩] "RBI policy changes" (mkRat 1 20))).filter
        (fun p => decide (p.2 = v)) =
      (searchScored (fun _ => ⟨[], [], ["RBI"], []⟩) (fun _ => [])
        [⟨"s9", "RBI policy changes", [], none, none, [], ["RBI"], [],
          [], [], none, none⟩] "RBI policy changes" (mkRat 1 20)).filter
        (fun p => decide (p.2 = v)))) :=
  Or.inr (search_ranking_contract (fun _ => ⟨[], [], ["RBI"], []⟩)
    (fun _ => [])
    [⟨"s9", "RBI policy changes", [], none, none, [], ["RBI"], [],
      [], [], none, none⟩] "RBI policy changes" 5 (mkRat 1 20))

/-- A successful keyed find? splits the story map around the unique
entry carrying the key. -/
theorem find?_split (sid : String) :
    ∀ (l : List (String × Story)), (l.map Prod.fst).Nodup →
    ∀ p, l.find? (fun q => decide (q.1 = sid)) = some p →
    ∃ l₁ l₂, l = l₁ ++ p :: l₂ ∧ p.1 = sid ∧
      (∀ q ∈ l₁, q.1 ≠ sid) ∧ (∀ q ∈ l₂, q.1 ≠ sid) := by
  intro l
  induction l with
  | nil => intro _ p hp; simp at hp
  | cons q rest ih =>
    intro hnd p hp
    rw [List.map_cons, List.nodup_cons] at hnd
    by_cases hq : q.1 = sid
    · rw [List.find?_cons_of_pos _ (by simp [hq])] at hp
      cases hp
      refine ⟨[], rest, by simp, hq, by simp, ?_⟩
      intro q' hq' hcontra
      apply hnd.1
      have hqq : q.1 = q'.1 := by rw [hq, hcontra]
      rw [hqq]
      exact List.mem_map_of_mem Prod.fst hq'
    · rw [List.find?_cons_of_neg _ (by simp [hq])] at hp
      obtain ⟨l₁, l₂, hsplit, hpk, h1, h2⟩ := ih hnd.2 p hp
      exact ⟨q :: l₁, l₂, by rw [hsplit, List.cons_append], hpk,
        by
          intro q' hq'
          rcases List.mem_cons.mp hq' with h | h
          · exact h ▸ hq
          · exact h1 q' h,
        h2⟩

/-- The keyed update map rewrites exactly the found entry when the
surrounding entries carry different keys. -/
theorem updateByKey_map (sid : String) (merged : Story)
    (l₁ l₂ : List (String × Story)) (p : String × Story)
    (h1 : ∀ q ∈ l₁, q.1 ≠ sid) (hp : p.1 = sid) (h2 : ∀ q ∈ l₂, q.1 ≠ sid) :
    (l₁ ++ p :: l₂).map
      (fun q => if q.1 = sid then (q.1, merged) else q) =
      l₁ ++ (p.1, merged) :: l₂ := by
  rw [List.map_append, List.map_cons]
  congr 1
  · have : ∀ q ∈ l₁,
        (fun q : String × Story => if q.1 = sid then (q.1, merged) else q) q =
        id q := by
      intro q hq
      simp [h1 q hq]
    rw [List.map_congr_left this, List.map_id]
  · congr 1
    · rw [if_pos hp]
    · have : ∀ q ∈ l₂,
          (fun q : String × Story => if q.1 = sid then (q.1, merged) else q) q =
          id q := by
        intro q hq
        simp [h2 q hq]
      rw [List.map_congr_left this, List.map_id]

/-- One process_article call preserves the deduplication invariant:
the new article id joins exactly one story (the fresh story on create,
the matched story on merge - even when the merge subsequently raises
on the tag assignment, since the member append precedes it), and keys
stay distinct fresh uuids. -/
theorem processArticle_inv (sims : List String → String → List ℚ)
    (supply : ℕ → String) (st : DedupState) (a : NewsArticle)
    (processed : List String) (n : ℕ)
    (hsims : ∀ corpus t, (sims corpus t).length = corpus.length)
    (hsupply : ∀ i j, supply i = supply j → i = j)
    (hinv : DedupInv supply st processed n)
    (ha : a.id ∉ processed) :
    DedupInv supply (processArticle sims (supply n) st a).1
      (processed ++ [a.id]) (n + 1) := by
  obtain ⟨hkeys, hrange, hnodup, hiff⟩ := hinv
  cases hfss : findSimilarStory sims st a with
  | none =>
    have hst : (processArticle sims (supply n) st a).1 =
        { stories := st.stories ++ [(supply n,
            { id := supply n, title := a.title, article_ids := [a.id],
              embedding := none })],
          similarity_threshold := st.similarity_threshold } := by
      unfold processArticle
      rw [hfss]
    rw [hst]
    refine ⟨?_, ?_, ?_, ?_⟩
    · rw [List.map_append, List.nodup_append]
      refine ⟨hkeys, by simp, ?_⟩
      intro k hk hk2
      have hkn : k = supply n := by simpa using hk2
      obtain ⟨i, hi, hik⟩ := hrange k hk
      have : i = n := hsupply i n (by rw [← hik, ← hkn])
      omega
    · intro k hk
      rw [List.map_append] at hk
      rcases List.mem_append.mp hk with h | h
      · obtain ⟨i, hi, hik⟩ := hrange k h
        exact ⟨i, by omega, hik⟩
      · exact ⟨n, by omega, by simpa using h⟩
    · rw [List.map_append, List.flatten_append]
      simp only [List.map_cons, List.map_nil, List.flatten_cons,
        List.flatten_nil, List.append_nil]
      rw [List.nodup_append]
      refine ⟨hnodup, by simp, ?_⟩
      intro x hx hx2
      have hxa : x = a.id := by simpa using hx2
      exact ha (hxa ▸ (hiff x).mp hx)
    · intro x
      rw [List.map_append, List.flatten_append, List.mem_append,
        List.mem_append, hiff]
      simp
  | some sid =>
    have hne : st.stories ≠ [] := by
      intro h
      unfold findSimilarStory at hfss
      rw [if_pos h] at hfss
      cases hfss
    have hlen : (sims (st.stories.map (fun p => storyText p.2))
        (articleText a)).length = st.stories.length := by
      rw [hsims]
      simp
    have hsne : sims (st.stories.map (fun p => storyText p.2))
        (articleText a) ≠ [] := by
      intro h0
      rw [h0] at hlen
      exact hne (List.eq_nil_of_length_eq_zero hlen.symm)
    obtain ⟨hklt, hmax2, hfirst2⟩ := argmaxIdx_spec _ hsne
    have hklen : argmaxIdx (sims (st.stories.map (fun p => storyText p.2))
        (articleText a)) < st.stories.length := hlen ▸ hklt
    have hsid : sid = (st.stories.map Prod.fst).getD
        (argmaxIdx (sims (st.stories.map (fun p => storyText p.2))
          (articleText a))) "" := by
      unfold findSimilarStory at hfss
      rw [if_neg hne] at hfss
      dsimp only at hfss
      split at hfss
      · cases hfss
      · injection hfss with h
        exact h.symm
    have hsidmem : sid ∈ st.stories.map Prod.fst := by
      rw [hsid, List.getD_eq_getElem _ _ (by simpa using hklen)]
      exact List.getElem_mem _
    have hex : ∃ x ∈ st.stories,
        (fun q : String × Story => decide (q.1 = sid)) x = true := by
      rw [List.mem_map] at hsidmem
      obtain ⟨q, hq, hq1⟩ := hsidmem
      exact ⟨q, hq, by simp [hq1]⟩
    obtain ⟨p, hp⟩ := Option.isSome_iff_exists.mp (List.find?_isSome.mpr hex)
    obtain ⟨l₁, l₂, hsplit, hpk, h1, h2⟩ := find?_split sid st.stories hkeys p hp
    have hanotin : a.id ∉ p.2.article_ids := by
      intro hmem
      apply ha
      rw [← hiff, List.mem_flatten]
      refine ⟨p.2.article_ids, ?_, hmem⟩
      rw [List.mem_map]
      refine ⟨p, ?_, rfl⟩
      rw [hsplit]
      exact List.mem_append_right _ (List.mem_cons_self _ _)
    have hst : (processArticle sims (supply n) st a).1 =
        { stories := st.stories.map (fun q => if q.1 = sid then
            (q.1, { p.2 with article_ids := p.2.article_ids ++ [a.id] })
          else q),
          similarity_threshold := st.similarity_threshold } := by
      simp only [processArticle, hfss, hp]
      rw [if_neg hanotin]
    rw [hst]
    have hstories : st.stories.map (fun q => if q.1 = sid then
        (q.1, { p.2 with article_ids := p.2.article_ids ++ [a.id] }) else q) =
        l₁ ++ (p.1, { p.2 with article_ids := p.2.article_ids ++ [a.id] }) :: l₂ := by
      rw [hsplit]
      exact updateByKey_map sid _ l₁ l₂ p h1 hpk h2
    rw [hstories]
    rw [hsplit] at hkeys hrange hnodup hiff
    have hkeyseq : (l₁ ++ (p.1,
        { p.2 with article_ids := p.2.article_ids ++ [a.id] }) :: l₂).map
          Prod.fst = (l₁ ++ p :: l₂).map Prod.fst := by
      simp [List.map_append, List.map_cons]
    have hpermflat : ((l₁ ++ (p.1,
        { p.2 with article_ids := p.2.article_ids ++ [a.id] }) :: l₂).map
          (fun q => q.2.article_ids)).flatten.Perm
        (((l₁ ++ p :: l₂).map (fun q => q.2.article_ids)).flatten ++ [a.id]) := by
      simp only [List.map_append, List.map_cons, List.flatten_append,
        List.flatten_cons, List.append_assoc]
      refine List.Perm.append_left _ ?_
      refine List.Perm.append_left _ ?_
      have hmid : (a.id :: (l₂.map (fun q => q.2.article_ids)).flatten).Perm
          ((l₂.map (fun q => q.2.article_ids)).flatten ++ [a.id]) := by
        simpa using
          (@List.perm_middle String a.id
            ((l₂.map (fun q => q.2.article_ids)).flatten)
            ([] : List String)).symm
      simpa using hmid
    refine ⟨?_, ?_, ?_, ?_⟩
    · rw [hkeyseq]
      exact hkeys
    · intro k hk
      rw [hkeyseq] at hk
      obtain ⟨i, hi, hik⟩ := hrange k hk
      exact ⟨i, by omega, hik⟩
    · rw [hpermflat.nodup_iff]
      rw [List.nodup_append]
      refine ⟨hnodup, by simp, ?_⟩
      intro x hx hx2
      have hxa : x = a.id := by simpa using hx2
      exact ha (hxa ▸ (hiff x).mp hx)
    · intro x
      rw [hpermflat.mem_iff, List.mem_append, hiff, List.mem_append]

/-- Folding process_article over a stream of fresh articles preserves
the deduplication invariant. -/
theorem processMany_inv (sims : List String → String → List ℚ)
    (supply : ℕ → String)
    (hsims : ∀ corpus t, (sims corpus t).length = corpus.length)
    (hsupply : ∀ i j, supply i = supply j → i = j) :
    ∀ (articles : List NewsArticle) (st : DedupState)
      (processed : List String) (n : ℕ),
    DedupInv supply st processed n →
    (processed ++ articles.map (fun a => a.id)).Nodup →
    DedupInv supply (processMany sims supply st n articles)
      (processed ++ articles.map (fun a => a.id)) (n + articles.length) := by
  intro articles
  induction articles with
  | nil =>
    intro st processed n hinv _
    simpa using hinv
  | cons a rest ih =>
    intro st processed n hinv hnd
    have heq1 : processed ++ (a :: rest).map (fun a => a.id) =
        (processed ++ [a.id]) ++ rest.map (fun a => a.id) := by
      simp
    have ha : a.id ∉ processed := by
      rw [List.map_cons, List.nodup_append] at hnd
      intro hmem
      exact hnd.2.2 hmem (List.mem_cons_self _ _)
    have hstep := processArticle_inv sims supply st a processed n hsims
      hsupply hinv ha
    have hrest := ih (processArticle sims (supply n) st a).1
      (processed ++ [a.id]) (n + 1) hstep (by rw [← heq1]; exact hnd)
    have heq2 : n + (a :: rest).length = (n + 1) + rest.length := by
      simp only [List.length_cons]
      omega
    rw [show processMany sims supply st n (a :: rest) =
      processMany sims supply (processArticle sims (supply n) st a).1
        (n + 1) rest from rfl, heq1, heq2]
    exact hrest

/-- C4: the partition invariant.  After processing any stream of
articles with pairwise-distinct ids (with distinct uuid draws and a
length-respecting similarity kernel) starting from an empty story map,
the concatenation of all member lists is duplicate-free, its members
are exactly the processed article ids, and every processed article id
lies in the member list of exactly one story. -/
theorem dedup_partition_invariant (sims : List String → String → List ℚ)
    (supply : ℕ → String) (θ : ℚ) (articles : List NewsArticle)
    (hsims : ∀ corpus t, (sims corpus t).length = corpus.length)
    (hsupply : ∀ i j, supply i = supply j → i = j)
    (hids : (articles.map (fun a => a.id)).Nodup) :
    ((((processMany sims supply
        { stories := [], similarity_threshold := θ } 0 articles).stories.map
        (fun p => p.2.article_ids)).flatten).Nodup) ∧
    (∀ aid, aid ∈ ((processMany sims supply
        { stories := [], similarity_threshold := θ } 0 articles).stories.map
        (fun p => p.2.article_ids)).flatten ↔
      aid ∈ articles.map (fun a => a.id)) ∧
    (∀ aid, aid ∈ articles.map (fun a => a.id) →
      ∃ p, p ∈ (processMany sims supply
          { stories := [], similarity_threshold := θ } 0 articles).stories ∧
        aid ∈ p.2.article_ids ∧
        ∀ q, q ∈ (processMany sims supply
            { stories := [], similarity_threshold := θ } 0 articles).stories →
          aid ∈ q.2.article_ids → q = p) := by
  have hinit : DedupInv supply
      { stories := [], similarity_threshold := θ } [] 0 := by
    exact ⟨by simp, by simp, by simp, by simp⟩
  have hfull := processMany_inv sims supply hsims hsupply articles
    { stories := [], similarity_threshold := θ } [] 0 hinit
    (by simpa using hids)
  simp only [List.nil_append, Nat.zero_add] at hfull
  obtain ⟨hkeys, _, hnodup, hiff⟩ := hfull
  refine ⟨hnodup, hiff, ?_⟩
  intro aid haid
  have hmem : aid ∈ ((processMany sims supply
      { stories := [], similarity_threshold := θ } 0 articles).stories.map
      (fun p => p.2.article_ids)).flatten := (hiff aid).mpr haid
  rw [List.mem_flatten] at hmem
  obtain ⟨lst, hlst, hal⟩ := hmem
  rw [List.mem_map] at hlst
  obtain ⟨p, hp, hpl⟩ := hlst
  refine ⟨p, hp, hpl ▸ hal, ?_⟩
  intro q hq haq
  by_contra hne
  obtain ⟨i, hi, hpi⟩ := List.mem_iff_getElem.mp hp
  obtain ⟨j, hj, hqj⟩ := List.mem_iff_getElem.mp hq
  have hij : i ≠ j := by
    intro h
    subst h
    exact hne (by rw [← hqj, ← hpi])
  have hdisj := (List.nodup_flatten.mp hnodup).2
  rw [List.pairwise_iff_getElem] at hdisj
  have hpaid : aid ∈ p.2.article_ids := hpl ▸ hal
  rcases hij.lt_or_lt with hlt | hlt
  · have hdd := hdisj i j (by simpa using hi) (by simpa using hj) hlt
    rw [List.getElem_map, List.getElem_map] at hdd
    rw [hpi, hqj] at hdd
    exact hdd hpaid haq
  · have hdd := hdisj j i (by simpa using hj) (by simpa using hi) hlt
    rw [List.getElem_map, List.getElem_map] at hdd
    rw [hpi, hqj] at hdd
    exact hdd haq hpaid

/-- Witness for dedup_partition_invariant: two distinct articles, the
constant-1.0 kernel and an injective uuid supply. -/
theorem dedup_partition_invariant_witness :
    (∀ corpus t, (c4Sims corpus t).length = corpus.length) ∧
    (∀ i j, c4Supply i = c4Supply j → i = j) ∧
    ((c4Articles.map (fun a => a.id)).Nodup) ∧
    (((((processMany c4Sims c4Supply
        { stories := [], similarity_threshold := mkRat 6 10 } 0
        c4Articles).stories.map (fun p => p.2.article_ids)).flatten).Nodup) ∧
    (∀ aid, aid ∈ ((processMany c4Sims c4Supply
        { stories := [], similarity_threshold := mkRat 6 10 } 0
        c4Articles).stories.map (fun p => p.2.article_ids)).flatten ↔
      aid ∈ c4Articles.map (fun a => a.id)) ∧
    (∀ aid, aid ∈ c4Articles.map (fun a => a.id) →
      ∃ p, p ∈ (processMany c4Sims c4Supply
          { stories := [], similarity_threshold := mkRat 6 10 } 0
          c4Articles).stories ∧
        aid ∈ p.2.article_ids ∧
        ∀ q, q ∈ (processMany c4Sims c4Supply
            { stories := [], similarity_threshold := mkRat 6 10 } 0
            c4Articles).stories →
          aid ∈ q.2.article_ids → q = p)) :=
  ⟨by intro c t; simp [c4Sims],
   by
     intro i j h
     have hlen := congrArg (fun s : String => s.data.length) h
     simpa [c4Supply] using hlen,
   by decide,
   dedup_partition_invariant c4Sims c4Supply (mkRat 6 10) c4Articles
     (by intro c t; simp [c4Sims])
     (by
       intro i j h
       have hlen := congrArg (fun s : String => s.data.length) h
       simpa [c4Supply] using hlen)
     (by decide)⟩
